import Mathlib

/-!
Verification development for the feishu-md-exporter code base.

The TypeScript sources are shallowly embedded: strings are modelled as
their character lists (core `String` primitives do not reduce in the
kernel, so every string operation used by the embedding is defined here
over `List Char` and wrapped back into `String` at the boundaries),
JavaScript values reaching the renderer are modelled by the `JsonV`
inductive, and the stateful crawl / client code is modelled by explicit
state passing.  Functions keep the names of their TypeScript sources.
-/

namespace FeishuMd

/-! ## JavaScript string model

Helper operations over `List Char` mirroring the JavaScript string
methods used in the sources.  JavaScript whitespace (`\s`, `trim`) is
modelled by the ASCII whitespace characters, which covers every input
appearing in this development.
-/

/-- The backtick character (code point 96), written via its code so that
the source file contains no literal backtick. -/
def backtick : Char := Char.ofNat 96

/-- JavaScript whitespace class (ASCII fragment): space, tab, LF, CR, VT, FF. -/
def isJsWs (c : Char) : Bool :=
  c = ' ' || c = '\t' || c = '\n' || c = '\x0d' || c = '\x0b' || c = '\x0c'

/-- ASCII lower-casing of one character. -/
def asciiLower (c : Char) : Char :=
  if 'A' ≤ c && c ≤ 'Z' then Char.ofNat (c.toNat + 32) else c

/-- ASCII lower-casing of a character list (model of `toLowerCase`). -/
def lowerChars (s : List Char) : List Char := s.map asciiLower

def dropWhileWs : List Char → List Char
  | [] => []
  | c :: rest => if isJsWs c then dropWhileWs rest else c :: rest

/-- Model of JavaScript `String.prototype.trim` (ASCII fragment). -/
def jsTrim (s : List Char) : List Char :=
  (dropWhileWs (dropWhileWs s.reverse).reverse)

/-- Split a character list at every occurrence of one character.
`splitOnChar '\n'` models `split('\n')` (a trailing separator yields a
trailing empty piece, as in JavaScript). -/
def splitOnCharAux (sep : Char) : List Char → List Char → List (List Char)
  | [], acc => [acc.reverse]
  | c :: rest, acc =>
    if c = sep then acc.reverse :: splitOnCharAux sep rest []
    else splitOnCharAux sep rest (c :: acc)

def splitOnChar (sep : Char) (s : List Char) : List (List Char) :=
  splitOnCharAux sep s []

/-- Replace every occurrence of the two-character sequence CR LF by LF
(model of `replace(/\r\n/g, '\n')`). -/
def replaceCrLf : List Char → List Char
  | [] => []
  | '\x0d' :: '\n' :: rest => '\n' :: replaceCrLf rest
  | c :: rest => c :: replaceCrLf rest

/-- Does `pat` occur as a contiguous subsequence of `s`?  Models
`String.prototype.includes`. -/
def containsSeq (pat : List Char) (s : List Char) : Bool :=
  match s with
  | [] => pat.isEmpty
  | _ :: rest => pat.isPrefixOf s || containsSeq pat rest

/-- First occurrence split: `splitFirstSeq pat s = some (before, after)`
when `pat` occurs in `s`, splitting around the first occurrence. -/
def splitFirstSeq (pat : List Char) (s : List Char) : Option (List Char × List Char) :=
  match s with
  | [] => if pat.isEmpty then some ([], []) else none
  | c :: rest =>
    if pat.isPrefixOf s then some ([], s.drop pat.length)
    else match splitFirstSeq pat rest with
      | some (bef, aft) => some (c :: bef, aft)
      | none => none

/-- `joinSep sep pieces` models `Array.prototype.join(sep)`. -/
def joinSep (sep : List Char) : List (List Char) → List Char
  | [] => []
  | [x] => x
  | x :: rest => x ++ sep ++ joinSep sep rest

/-- Decimal digits of a natural number (helper for the `Nat → String`
conversions appearing in template strings).  The fuel argument only
bounds the recursion (`n / 10 < n` for positive `n`, so `n + 1` steps
always suffice); it keeps the definition structurally recursive so that
it reduces inside the kernel. -/
def natDigitsF : Nat → Nat → List Char
  | 0, _ => []
  | fuel + 1, n =>
    let d := Char.ofNat (n % 10 + 48)
    if n < 10 then [d]
    else natDigitsF fuel (n / 10) ++ [d]

def natToChars (n : Nat) : List Char := natDigitsF (n + 1) n

/-- Model of JavaScript `Number(string)` restricted to the non-negative
integer inputs this code base feeds it (used only through
`toPositiveInteger`, which demands a positive integer anyway). -/
def jsStringToNat (s : List Char) : Option Nat :=
  let t := jsTrim s
  if t.isEmpty then none
  else if t.all (fun c => '0' ≤ c && c ≤ '9') then
    some (t.foldl (fun acc c => acc * 10 + (c.toNat - 48)) 0)
  else none

/-- Append with set semantics in insertion order (model of `Set.add` /
pushing into a deduplicated array). -/
def insertDedup (l : List String) (x : String) : List String :=
  if x ∈ l then l else l ++ [x]

/-! ## JavaScript value model

`JsonV` models the loosely typed JavaScript values handled by the
renderer.  Numbers are modelled as integers (every numeric field this
code base inspects — block types, sizes, ordered-list hints, language
ids — is an integer). -/

inductive JsonV where
  | str (s : String)
  | num (n : Int)
  | bool (b : Bool)
  | null
  | arr (elems : List JsonV)
  | obj (fields : List (String × JsonV))
deriving Inhabited

/-- Field access `record[key]`; `none` models `undefined`.  Arrays are
objects in JavaScript but have none of the string keys this code base
reads, so they yield `undefined` for every lookup. -/
def jget (v : JsonV) (key : String) : Option JsonV :=
  match v with
  | .obj fields => lookupField fields key
  | _ => none
where lookupField : List (String × JsonV) → String → Option JsonV
  | [], _ => none
  | (k, x) :: rest, key => if k = key then some x else lookupField rest key

/-- The `in` operator on records (`'key' in record`). -/
def jhas (v : JsonV) (key : String) : Bool :=
  match v with
  | .obj fields => fields.any (fun kv => kv.1 = key)
  | _ => false

/-- `typeof v === 'object' && v !== null` — the guard behind `toRecord`. -/
def isObjLike (v : JsonV) : Bool :=
  match v with
  | .obj _ => true
  | .arr _ => true
  | _ => false

/-- JavaScript truthiness of a value. -/
def jsTruthy (v : JsonV) : Bool :=
  match v with
  | .str s => s ≠ ""
  | .num n => n ≠ 0
  | .bool b => b
  | .null => false
  | .arr _ => true
  | .obj _ => true

/-- Truthiness of a possibly-absent value (`undefined` is falsy). -/
def jsTruthyOpt (v : Option JsonV) : Bool :=
  match v with
  | some x => jsTruthy x
  | none => false

/-- Truthiness of an optional string (`undefined` and `''` are falsy). -/
def strTruthy (s : Option String) : Bool :=
  match s with
  | some x => x ≠ ""
  | none => false

/-- JavaScript `a || b` on optional strings. -/
def jsOrStr (a b : Option String) : Option String :=
  if strTruthy a then a else b

mutual

/-- Computable structural size of a `JsonV` (strictly larger than the
size of any nested value; used as recursion fuel by the functions that
recurse through field lookups). -/
def jsonSize : JsonV → Nat
  | .str _ => 1
  | .num _ => 1
  | .bool _ => 1
  | .null => 1
  | .arr xs => 1 + jsonListSize xs
  | .obj fs => 1 + jsonFieldsSize fs

def jsonListSize : List JsonV → Nat
  | [] => 0
  | x :: rest => 1 + jsonSize x + jsonListSize rest

def jsonFieldsSize : List (String × JsonV) → Nat
  | [] => 0
  | kv :: rest => 1 + jsonSize kv.2 + jsonFieldsSize rest

end

/-! ## URL model

Model of the WHATWG `URL` constructor for the fragment this code base
relies on: `scheme://[userinfo@]host[:port]/path[?query][#fragment]`.
The model lower-cases scheme and host (ASCII), elides default ports,
drops query and fragment, and defaults an empty path to `/`.  Dot-segment
normalization, IPv6 hosts and percent-decoding are outside its scope
(none of the URLs this code base constructs or tests rely on them). -/

structure UrlParts where
  origin : String
  hostname : String
  pathname : String
deriving DecidableEq

def urlPathOf (afterAuth : List Char) : List Char :=
  let p := afterAuth.takeWhile (fun c => c ≠ '?' && c ≠ '#')
  if p.isEmpty then ['/'] else p

def mkUrlParts (scheme host portSuffix afterAuth : List Char) : UrlParts :=
  { origin := String.mk (scheme ++ ':' :: '/' :: '/' :: host ++ portSuffix)
    hostname := String.mk host
    pathname := String.mk (urlPathOf afterAuth) }

def parseURL (input : String) : Option UrlParts :=
  match splitFirstSeq [':', '/', '/'] input.data with
  | none => none
  | some (schemeChars, rest) =>
    if schemeChars.isEmpty || !schemeChars.all Char.isAlpha then none
    else
      let authority := rest.takeWhile (fun c => c ≠ '/' && c ≠ '?' && c ≠ '#')
      let afterAuth := rest.drop authority.length
      let hostPort := (authority.reverse.takeWhile (fun c => c ≠ '@')).reverse
      let scheme := lowerChars schemeChars
      match splitFirstSeq [':'] hostPort with
      | some (hostRaw, port) =>
        let host := lowerChars hostRaw
        if host.isEmpty then none
        else if port.isEmpty then some (mkUrlParts scheme host [] afterAuth)
        else if !(port.all (fun c => '0' ≤ c && c ≤ '9')) then none
        else
          let defaulted := (scheme = "http".data && port = "80".data)
            || (scheme = "https".data && port = "443".data)
          some (mkUrlParts scheme host (if defaulted then [] else ':' :: port) afterAuth)
      | none =>
        let host := lowerChars hostPort
        if host.isEmpty then none
        else some (mkUrlParts scheme host [] afterAuth)

/-- Origin of an already-canonical URL (model of `new URL(u).origin` at
the call sites that only feed it URLs returned by `parseFeishuResource`). -/
def urlOrigin (u : String) : String :=
  match parseURL u with
  | some parts => parts.origin
  | none => ""

/-! ## src/utils/url.ts -/

inductive FeishuResourceKind where
  | docx | wiki | sheet | base | slides | unknown
deriving DecidableEq

/-- The string value of the TypeScript union member (used when a kind is
interpolated into a URL template). -/
def FeishuResourceKind.pathStr : FeishuResourceKind → String
  | .docx => "docx"
  | .wiki => "wiki"
  | .sheet => "sheet"
  | .base => "base"
  | .slides => "slides"
  | .unknown => "unknown"

structure FeishuResource where
  kind : FeishuResourceKind
  token : String
  url : String
deriving DecidableEq

def FEISHU_PATH_KINDS : List (List Char) :=
  ["docx".data, "wiki".data, "sheets".data, "sheet".data, "base".data,
   "bitable".data, "slides".data]

/-- `FEISHU_HOST_PATTERN.test(hostname)`: the regex anchors only at the
end, so it is a case-insensitive suffix test. -/
def isFeishuHost (hostname : String) : Bool :=
  let h := lowerChars hostname.data
  List.isSuffixOf "feishu.cn".data h
    || List.isSuffixOf "larksuite.com".data h
    || List.isSuffixOf "larkoffice.com".data h

def normalizeKind (kind : String) : FeishuResourceKind :=
  if kind = "docx" then .docx
  else if kind = "wiki" then .wiki
  else if kind = "sheet" || kind = "sheets" then .sheet
  else if kind = "base" || kind = "bitable" then .base
  else if kind = "slides" then .slides
  else .unknown

def parseFeishuResource (input : String) : Option FeishuResource :=
  match parseURL input with
  | none => none
  | some parsed =>
    if !isFeishuHost parsed.hostname then none
    else
      match (splitOnChar '/' parsed.pathname.data).filter (fun s => !s.isEmpty) with
      | s0 :: s1 :: _ =>
        let rawKind := lowerChars s0
        let token := s1
        if rawKind.isEmpty || token.isEmpty then none
        else if !FEISHU_PATH_KINDS.contains rawKind then none
        else some
          { kind := normalizeKind (String.mk rawKind)
            token := String.mk token
            url := parsed.origin ++ "/" ++ String.mk rawKind ++ "/" ++ String.mk token }
      | _ => none

/-! ## src/schema.ts (discovery data model helpers) -/

structure DocumentItem where
  id : String
  kind : FeishuResourceKind
  token : String
  url : String
  depth : Nat
  title : Option String := none
  objKind : Option String := none
  objToken : Option String := none
  parentId : Option String := none
  parentIds : List String := []
deriving DecidableEq

structure DocumentRelation where
  parentId : String
  childId : String
deriving DecidableEq

inductive DocumentTreeNode where
  | node (id : String) (children : List DocumentTreeNode)

def DocumentTreeNode.id : DocumentTreeNode → String
  | .node i _ => i

def DocumentTreeNode.children : DocumentTreeNode → List DocumentTreeNode
  | .node _ c => c

def resourceId (kind : FeishuResourceKind) (token : String) : String :=
  kind.pathStr ++ ":" ++ token

def mapWikiObjectKind (kind : String) : FeishuResourceKind :=
  let normalized := String.mk (lowerChars kind.data)
  if normalized = "docx" || normalized = "doc" then .docx
  else if normalized = "sheet" || normalized = "sheets" then .sheet
  else if normalized = "bitable" || normalized = "base" then .base
  else if normalized = "slides" then .slides
  else if normalized = "wiki" then .wiki
  else .unknown

/-- `mergeParentRelation` mutates the item and the relation set in the
source; the model returns the updated pair. -/
def mergeParentRelation (item : DocumentItem) (parentId : Option String)
    (relations : List String) : DocumentItem × List String :=
  match parentId with
  | none => (item, relations)
  | some p =>
    if p = "" then (item, relations)
    else
      ({ item with parentIds :=
          if p ∈ item.parentIds then item.parentIds else item.parentIds ++ [p] },
       insertDedup relations (p ++ "=>" ++ item.id))

def serializeRelations (relations : List String) : List DocumentRelation :=
  relations.map (fun relation =>
    match splitFirstSeq ['=', '>'] relation.data with
    | some (p, c) =>
      match splitFirstSeq ['=', '>'] c with
      | some (c0, _) => { parentId := String.mk p, childId := String.mk c0 }
      | none => { parentId := String.mk p, childId := String.mk c }
    | none => { parentId := String.mk relation.data, childId := "" })

/-- Association-list update modelling `Map.get(parent) || []` followed by
`push` and `set` (existing keys keep their slot, new keys append). -/
def updateAssoc (m : List (String × List String)) (k : String) (c : String) :
    List (String × List String) :=
  match m with
  | [] => [(k, [c])]
  | (k0, v) :: rest =>
    if k0 = k then (k0, v ++ [c]) :: rest else (k0, v) :: updateAssoc rest k c

theorem lookup_mem_keys {β : Type} {m : List (String × β)} {k : String} {v : β}
    (h : m.lookup k = some v) : k ∈ m.map Prod.fst := by
  induction m with
  | nil => simp [List.lookup] at h
  | cons hd tl ih =>
    rw [List.lookup] at h
    by_cases hk : k = hd.1
    · simp [hk]
    · simp only [show (k == hd.1) = false by simpa using hk] at h
      simp [ih h]

theorem filter_imp_length_le {α : Type} (p q : α → Bool) (l : List α)
    (h : ∀ a, p a = true → q a = true) :
    (l.filter p).length ≤ (l.filter q).length := by
  induction l with
  | nil => simp
  | cons a t ih =>
    rw [List.filter_cons, List.filter_cons]
    by_cases hp : p a = true
    · rw [if_pos hp, if_pos (h a hp)]
      simpa using ih
    · rw [if_neg hp]
      by_cases hq : q a = true
      · rw [if_pos hq]
        exact le_trans ih (by simp)
      · rw [if_neg hq]
        exact ih

theorem remaining_keys_lt {l : List String} {c : String} {seen : List String}
    (hc : c ∈ l) (hns : c ∉ seen) :
    (l.filter (fun k => !((c :: seen).contains k))).length
      < (l.filter (fun k => !(seen.contains k))).length := by
  have himp : ∀ a : String, (!((c :: seen).contains a)) = true →
      (!(seen.contains a)) = true := by
    intro a ha
    simp at ha ⊢
    exact ha.2
  induction l with
  | nil => simp at hc
  | cons a t ih =>
    rw [List.filter_cons, List.filter_cons]
    by_cases hac : a = c
    · subst hac
      rw [if_neg (by simp : ¬((!((a :: seen).contains a)) = true))]
      rw [if_pos (show (!(seen.contains a)) = true by simpa using hns)]
      calc (t.filter (fun k => !((a :: seen).contains k))).length
          ≤ (t.filter (fun k => !(seen.contains k))).length :=
            filter_imp_length_le _ _ t himp
        _ < (a :: t.filter (fun k => !(seen.contains k))).length := by simp
    · have hct : c ∈ t := by
        rcases List.mem_cons.mp hc with h | h
        · exact absurd h.symm hac
        · exact h
      by_cases hpa : (!((c :: seen).contains a)) = true
      · rw [if_pos hpa, if_pos (himp a hpa)]
        simpa using ih hct
      · rw [if_neg hpa]
        by_cases hqa : (!(seen.contains a)) = true
        · rw [if_pos hqa]
          exact lt_of_lt_of_le (ih hct) (by simp)
        · rw [if_neg hqa]
          exact ih hct

/-- `toTreeNode` from `src/schema.ts`.  The source maps over
`childrenByParent.get(id) || []`; an absent entry yields no children, so
the model splits on the lookup (the `none` branch is the empty map).
The fuel argument only bounds the recursion depth: every expanded level
pushes a map key that was not yet on the trail, so the depth never
exceeds the number of map entries plus one, which is the fuel
`toTreeNode` supplies; structural recursion on the fuel keeps the
definition kernel-reducible. -/
def toTreeNodeF (childrenByParent : List (String × List String)) :
    Nat → String → List String → DocumentTreeNode
  | 0, id, _ => .node id []
  | fuel + 1, id, trail =>
    if id ∈ trail then .node id []
    else
      match childrenByParent.lookup id with
      | none => .node id []
      | some children =>
        .node id (children.map
          (fun childId => toTreeNodeF childrenByParent fuel childId (id :: trail)))

def toTreeNode (childrenByParent : List (String × List String)) (id : String)
    (trail : List String) : DocumentTreeNode :=
  toTreeNodeF childrenByParent (childrenByParent.length + 1) id trail

def buildDocumentTree (documents : List DocumentItem) (relations : List DocumentRelation) :
    List DocumentTreeNode :=
  let documentIds := documents.map (fun d => d.id)
  let maps := relations.foldl
    (fun (acc : List (String × List String) × List String) relation =>
      if documentIds.contains relation.parentId && documentIds.contains relation.childId then
        (updateAssoc acc.1 relation.parentId relation.childId,
         insertDedup acc.2 relation.childId)
      else acc)
    ([], [])
  let roots := documentIds.filter (fun i => !(maps.2.contains i))
  roots.map (fun rootId => toTreeNode maps.1 rootId [])

/-! ## src/utils/markdown.ts -/

/-- First-some choice (`a ?? b` / early-return chains in the source). -/
def orElseO {α : Type} (a b : Option α) : Option α :=
  match a with
  | some x => some x
  | none => b

theorem sizeOf_lookupField {fields : List (String × JsonV)} {key : String} {x : JsonV}
    (h : jget.lookupField fields key = some x) : sizeOf x < sizeOf fields := by
  induction fields with
  | nil => simp [jget.lookupField] at h
  | cons hd tl ih =>
    rw [jget.lookupField] at h
    by_cases hk : hd.1 = key
    · rw [if_pos hk] at h
      cases h
      cases hd with
      | mk k v =>
        simp only [List.cons.sizeOf_spec, Prod.mk.sizeOf_spec]
        omega
    · rw [if_neg hk] at h
      have := ih h
      simp only [List.cons.sizeOf_spec]
      omega

theorem sizeOf_jget {v : JsonV} {key : String} {x : JsonV} (h : jget v key = some x) :
    sizeOf x < sizeOf v := by
  cases v with
  | obj fields =>
    rw [jget] at h
    have := sizeOf_lookupField h
    simp only [JsonV.obj.sizeOf_spec]
    omega
  | str s => simp [jget] at h
  | num n => simp [jget] at h
  | bool b => simp [jget] at h
  | null => simp [jget] at h
  | arr xs => simp [jget] at h

theorem sizeOf_mem_arr {xs : List JsonV} {x : JsonV} (h : x ∈ xs) :
    sizeOf x < sizeOf (JsonV.arr xs) := by
  have := List.sizeOf_lt_of_mem h
  simp only [JsonV.arr.sizeOf_spec]
  omega

def ORDERED_LIST_NUMBER_KEYS : List String :=
  ["order", "number", "sequence", "seq", "serial", "index", "start",
   "start_number", "startNumber"]

structure BlockMeta where
  id : Option String
  parentId : Option String
  blockType : String
  block : JsonV

/-- The render context.  The source keys `blockMetaByIdentity` by object
identity (a `WeakMap`); since the renderer only ever looks up the
top-level block currently being iterated, identity is modelled by the
block's position in `options.blocks`: `metas` is aligned with the block
list (`none` for non-object entries that got no meta).  `byId` models
`blockMetaById`, mapping a block id to the position of its first
registration, through which the shared meta object is read and, during
back-fill, written. -/
structure BlockRenderContext where
  metas : List (Option BlockMeta)
  byId : List (String × Nat)

def toStringId (value : Option JsonV) : Option String :=
  match value with
  | some (.str s) =>
    let normalized := jsTrim s.data
    if normalized.isEmpty then none else some (String.mk normalized)
  | _ => none

def readBlockIdentifier (record : JsonV) : Option String :=
  orElseO (toStringId (jget record "block_id"))
    (orElseO (toStringId (jget record "blockId"))
      (toStringId (jget record "id")))

def readParentIdentifier (record : JsonV) : Option String :=
  match orElseO (toStringId (jget record "parent_id")) (toStringId (jget record "parentId")) with
  | some v => some v
  | none =>
    match jget record "parent" with
    | some parent => if isObjLike parent then readBlockIdentifier parent else none
    | none => none

/-- `collectIdentifierList`; the accumulated set is threaded through.
The fuel only bounds the nesting depth (strictly decreasing `sizeOf`
along every recursive call), so `sizeOf value` steps always suffice. -/
def collectIdentifierListF : Nat → JsonV → List String → List String
  | 0, _, ids => ids
  | fuel + 1, value, ids =>
    match value with
    | .str s =>
      let normalized := jsTrim s.data
      if normalized.isEmpty then ids else insertDedup ids (String.mk normalized)
    | .arr items => items.foldl (fun acc item => collectIdentifierListF fuel item acc) ids
    | .obj fields =>
      match readBlockIdentifier (JsonV.obj fields) with
      | some i => insertDedup ids i
      | none => ids
    | _ => ids

def collectIdentifierList (value : JsonV) (ids : List String) : List String :=
  collectIdentifierListF (jsonSize value) value ids

def collectIdentifierListOpt (value : Option JsonV) (ids : List String) : List String :=
  match value with
  | none => ids
  | some v => collectIdentifierList v ids

def readChildIdentifiers (record : JsonV) : List String :=
  let ids := collectIdentifierListOpt (jget record "children_ids") []
  let ids := collectIdentifierListOpt (jget record "child_ids") ids
  let ids := collectIdentifierListOpt (jget record "childrenIds") ids
  let ids := collectIdentifierListOpt (jget record "childIds") ids
  let children := jget record "children"
  let ids := collectIdentifierListOpt children ids
  match children with
  | some ch =>
    if isObjLike ch then
      let ids := collectIdentifierListOpt (jget ch "block_ids") ids
      let ids := collectIdentifierListOpt (jget ch "child_ids") ids
      let ids := collectIdentifierListOpt (jget ch "children") ids
      collectIdentifierListOpt (jget ch "items") ids
    else ids
  | none => ids

def getPayloadBlockType (block : JsonV) : Option String :=
  if jhas block "heading1" then some "heading1"
  else if jhas block "heading2" then some "heading2"
  else if jhas block "heading3" then some "heading3"
  else if jhas block "heading4" then some "heading4"
  else if jhas block "heading5" then some "heading5"
  else if jhas block "heading6" then some "heading6"
  else if jhas block "bullet" then some "bullet"
  else if jhas block "ordered" then some "ordered"
  else if jhas block "code" then some "code"
  else if jhas block "quote" then some "quote"
  else if jhas block "table" then some "table"
  else if jhas block "todo" then some "todo"
  else if jhas block "callout" then some "callout"
  else none

def getNumericBlockType (block : JsonV) : Option Int :=
  match jget block "block_type" with
  | some (.num n) => some n
  | _ => none

def getNormalizedBlockType (block : JsonV) : Option String :=
  match jget block "block_type" with
  | some (.str s) => some (String.mk (lowerChars s.data))
  | _ =>
    match jget block "type" with
    | some (.str s) => some (String.mk (lowerChars s.data))
    | _ => none

def getBlockType (block : JsonV) : String :=
  match getPayloadBlockType block with
  | some t => t
  | none =>
    match getNormalizedBlockType block with
    | some t => t
    | none =>
      match getNumericBlockType block with
      | some 3 => "heading1"
      | some 4 => "heading2"
      | some 5 => "heading3"
      | some 6 => "heading4"
      | some 7 => "heading5"
      | some 8 => "heading6"
      | some 9 => "bullet"
      | some 10 => "ordered"
      | some 13 => "ordered"
      | some 11 => "code"
      | some 12 => "quote"
      | some 31 => "table"
      | some 14 => "todo"
      | _ => "paragraph"

def createBlockRenderContext (blocks : List JsonV) : BlockRenderContext :=
  let pass1 := blocks.foldl
    (fun (acc : List (Option BlockMeta) × List (String × Nat) × List (String × String)) block =>
      let i := acc.1.length
      if isObjLike block then
        let blockType := getBlockType block
        let id := readBlockIdentifier block
        let parentId := readParentIdentifier block
        let meta : BlockMeta :=
          { id := id, parentId := parentId, blockType := blockType, block := block }
        let byId := match id with
          | some idv =>
            if (acc.2.1.lookup idv).isSome then acc.2.1 else acc.2.1 ++ [(idv, i)]
          | none => acc.2.1
        let links := match id with
          | some idv => acc.2.2 ++ (readChildIdentifiers block).map (fun c => (idv, c))
          | none => acc.2.2
        (acc.1 ++ [some meta], byId, links)
      else (acc.1 ++ [none], acc.2.1, acc.2.2))
    ([], [], [])
  let metas := pass1.2.2.foldl
    (fun (metas : List (Option BlockMeta)) link =>
      match pass1.2.1.lookup link.2 with
      | some idx =>
        match metas[idx]? with
        | some (some childMeta) =>
          if strTruthy childMeta.parentId then metas
          else metas.set idx (some { childMeta with parentId := some link.1 })
        | _ => metas
      | none => metas)
    pass1.1
  { metas := metas, byId := pass1.2.1 }

def getBlockMeta (context : BlockRenderContext) (i : Nat) : Option BlockMeta :=
  (context.metas[i]?).join

def blockMetaById (context : BlockRenderContext) (id : String) : Option BlockMeta :=
  match context.byId.lookup id with
  | some idx => (context.metas[idx]?).join
  | none => none

def isListBlockType (blockType : String) : Bool :=
  blockType = "bullet" || blockType = "ordered" || blockType = "todo"

/-- The `while (cursor)` condition: an absent or empty-string cursor ends
the walk. -/
def strCursor (s : Option String) : Option String :=
  if strTruthy s then s else none

/-- The parent-chain walk of `getListDepth`.  Each iteration pushes a
distinct `byId` key onto `seen`, so the iteration count never exceeds the
number of `byId` entries; `listDepthLoop` supplies that as fuel. -/
def listDepthLoopF (context : BlockRenderContext) :
    Nat → Option String → List String → Nat → Nat
  | 0, _, _, depth => depth
  | fuel + 1, cursor, seen, depth =>
    match cursor with
    | none => depth
    | some c =>
      if c ∈ seen then depth
      else
        match context.byId.lookup c with
        | none => depth
        | some idx =>
          match (context.metas[idx]?).join with
          | none => depth
          | some parentMeta =>
            listDepthLoopF context fuel (strCursor parentMeta.parentId) (c :: seen)
              (if isListBlockType parentMeta.blockType then depth + 1 else depth)

def listDepthLoop (context : BlockRenderContext) (cursor : Option String)
    (seen : List String) (depth : Nat) : Nat :=
  listDepthLoopF context (context.byId.length + 1) cursor seen depth

def getListDepth (context : BlockRenderContext) (i : Nat) (blockType : String) : Nat :=
  if !isListBlockType blockType then 0
  else
    match getBlockMeta context i with
    | none => 0
    | some meta =>
      match strCursor meta.parentId with
      | none => 0
      | some p => listDepthLoop context (some p) [] 0

/-- The ancestor walk of `hasAncestorBlockType` (same fuel bound as
`listDepthLoopF`). -/
def ancestorTypeLoopF (context : BlockRenderContext) :
    Nat → Option String → List String → String → Bool
  | 0, _, _, _ => false
  | fuel + 1, cursor, seen, blockType =>
    match cursor with
    | none => false
    | some c =>
      if c ∈ seen then false
      else
        match context.byId.lookup c with
        | none => false
        | some idx =>
          match (context.metas[idx]?).join with
          | none => false
          | some parent =>
            if parent.blockType = blockType then true
            else ancestorTypeLoopF context fuel (strCursor parent.parentId) (c :: seen) blockType

def ancestorTypeLoop (context : BlockRenderContext) (cursor : Option String)
    (seen : List String) (blockType : String) : Bool :=
  ancestorTypeLoopF context (context.byId.length + 1) cursor seen blockType

def hasAncestorBlockType (context : BlockRenderContext) (i : Nat) (blockType : String) : Bool :=
  let cursor := match getBlockMeta context i with
    | some meta => strCursor meta.parentId
    | none => none
  ancestorTypeLoop context cursor [] blockType

/-- Length of the longest run of `target` in a list (model of
`content.match` against a one-character-run pattern, taking the longest
match). -/
def longestRunGo (target : Char) : List Char → Nat → Nat → Nat
  | [], current, best => max current best
  | c :: rest, current, best =>
    if c = target then longestRunGo target rest (current + 1) best
    else longestRunGo target rest 0 (max current best)

def longestRun (target : Char) (s : List Char) : Nat :=
  longestRunGo target s 0 0

def wrapMarkdownStyle (content : String) (marker : String) : String :=
  if content = "" then content else marker ++ content ++ marker

def wrapInlineCode (content : String) : String :=
  if content = "" then content
  else
    let longest := longestRun backtick content.data
    let fence := List.replicate (longest + 1) backtick
    let needsPadding := content.data.head? = some backtick
      || content.data.getLast? = some backtick
    let normalized := if needsPadding then ' ' :: content.data ++ [' '] else content.data
    String.mk (fence ++ normalized ++ fence)

/-- `value === true` on a possibly-absent field. -/
def isBoolTrue (value : Option JsonV) : Bool :=
  match value with
  | some (.bool true) => true
  | _ => false

def applyTextElementStyle (content : String) (style : JsonV) : String :=
  let formatted := content
  let formatted := if isBoolTrue (jget style "inline_code") then
      wrapInlineCode formatted else formatted
  let formatted := if isBoolTrue (jget style "bold") then
      wrapMarkdownStyle formatted "**" else formatted
  let formatted := if isBoolTrue (jget style "italic") then
      wrapMarkdownStyle formatted "*" else formatted
  let formatted := if isBoolTrue (jget style "strikethrough") then
      wrapMarkdownStyle formatted "~~" else formatted
  if isBoolTrue (jget style "underline") then
    "<u>" ++ formatted ++ "</u>"
  else formatted

def extractTextRun (textRun : JsonV) (richText : Bool) : String :=
  match jget textRun "content" with
  | some (.str content) =>
    if !richText then content
    else
      match jget textRun "text_element_style" with
      | some style =>
        if jsTruthy style && isObjLike style then applyTextElementStyle content style
        else content
      | none => content
  | _ => ""

def contentKeyHit (record : JsonV) (key : String) : Option String :=
  match jget record key with
  | some (.str candidate) =>
    if (jsTrim candidate.data).isEmpty then none else some candidate
  | _ => none

def contentKeysFallback (record : JsonV) : String :=
  match orElseO (contentKeyHit record "content")
      (orElseO (contentKeyHit record "text")
        (orElseO (contentKeyHit record "title") (contentKeyHit record "name"))) with
  | some s => s
  | none => ""

/-- `extractText`; `filter(Boolean).join('')` over an array is plain
concatenation.  The fuel only bounds the nesting depth (`sizeOf`
strictly decreases along every recursive call), so `sizeOf value` steps
always suffice. -/
def extractTextF : Nat → JsonV → Bool → String
  | 0, _, _ => ""
  | fuel + 1, value, richText =>
    match value with
    | .str s => s
    | .arr items => String.join (items.map (fun item => extractTextF fuel item richText))
    | .obj fields =>
      match jget (JsonV.obj fields) "elements" with
      | some (.arr elems) =>
        String.join (elems.map (fun item => extractTextF fuel item richText))
      | _ =>
        match jget (JsonV.obj fields) "text_run" with
        | some tr =>
          if jsTruthy tr && isObjLike tr then extractTextRun tr richText
          else contentKeysFallback (JsonV.obj fields)
        | none => contentKeysFallback (JsonV.obj fields)
    | _ => ""

def extractText (value : JsonV) (richText : Bool) : String :=
  extractTextF (jsonSize value) value richText

def extractBlockTextKeys (block : JsonV) (richText : Bool) : List String → String
  | [] => extractText block richText
  | key :: rest =>
    match jget block key with
    | some v =>
      let value := extractText v richText
      if value = "" then extractBlockTextKeys block richText rest else value
    | none => extractBlockTextKeys block richText rest

def extractBlockText (block : JsonV) (richText : Bool) : String :=
  if !isObjLike block then ""
  else
    extractBlockTextKeys block richText
      ["heading1", "heading2", "heading3", "heading4", "heading5", "heading6",
       "text", "bullet", "ordered", "code", "quote", "todo", "callout"]

def FEISHU_CODE_LANGUAGE_ID_TO_MARKDOWN (id : Int) : Option String :=
  if id = 1 then some "text"
  else if id = 7 then some "bash"
  else if id = 12 then some "css"
  else if id = 24 then some "html"
  else if id = 28 then some "json"
  else if id = 30 then some "javascript"
  else if id = 39 then some "markdown"
  else if id = 60 then some "shell"
  else if id = 63 then some "typescript"
  else if id = 66 then some "xml"
  else if id = 67 then some "yaml"
  else none

def normalizeCodeFenceLanguage (input : String) : String :=
  let normalized := String.mk (lowerChars (jsTrim input.data))
  if normalized = "" then ""
  else if normalized = "js" then "javascript"
  else if normalized = "jsx" then "jsx"
  else if normalized = "ts" then "typescript"
  else if normalized = "tsx" then "tsx"
  else if normalized = "javascriptreact" then "jsx"
  else if normalized = "typescriptreact" then "tsx"
  else if normalized = "yml" then "yaml"
  else if normalized = "plaintext" || normalized = "plain text" then "text"
  else normalized

def isAsciiAlphanum (c : Char) : Bool :=
  ('A' ≤ c && c ≤ 'Z') || ('a' ≤ c && c ≤ 'z') || ('0' ≤ c && c ≤ '9')

/-- Scan for a match of the pattern: a literal `<`, one upper-case
letter, any alphanumeric run, then whitespace or `>`. -/
def jsxTagScan : List Char → Bool
  | '<' :: c :: rest =>
    (if 'A' ≤ c && c ≤ 'Z' then
      match (rest.dropWhile isAsciiAlphanum).head? with
      | some ch => isJsWs ch || ch = '>'
      | none => false
     else false) || jsxTagScan (c :: rest)
  | _ :: rest => jsxTagScan rest
  | [] => false

/-- Scan for the pattern: the literal `return`, optional whitespace, a
literal open parenthesis, optional whitespace, then a `<`. -/
def returnJsxScan : List Char → Bool
  | [] => false
  | c :: rest =>
    (if List.isPrefixOf "return".data (c :: rest) then
      match ((c :: rest).drop 6).dropWhile isJsWs with
      | '(' :: a2 => (a2.dropWhile isJsWs).head? = some '<'
      | _ => false
     else false) || returnJsxScan rest

/-- Scan for an opening tag of `tag`: a literal `<`, the tag name, then
whitespace or `>`. -/
def tagOpenScan (tag : List Char) : List Char → Bool
  | [] => false
  | c :: rest =>
    (List.isPrefixOf ('<' :: tag) (c :: rest) &&
      (match ((c :: rest).drop (tag.length + 1)).head? with
       | some ch => isJsWs ch || ch = '>'
       | none => false)) || tagOpenScan tag rest

def looksLikeJsx (content : String) : Bool :=
  jsxTagScan content.data
    || returnJsxScan content.data
    || containsSeq ['<', '>'] content.data

def looksLikeVueSfc (content : String) : Bool :=
  tagOpenScan "template".data content.data && tagOpenScan "script".data content.data

def inferCodeFenceLanguage (language : String) (content : String) : String :=
  if (jsTrim content.data).isEmpty then language
  else if language = "javascript" && looksLikeJsx content then "jsx"
  else if language = "typescript" && looksLikeJsx content then "tsx"
  else if (language = "html" || language = "text") && looksLikeVueSfc content then "vue"
  else language

def getCodeLanguage (block : JsonV) (content : String) : String :=
  if !isObjLike block then ""
  else
    match jget block "code" with
    | some code =>
      if !(jsTruthy code && isObjLike code) then ""
      else
        let resolved :=
          match jget code "style" with
          | some style =>
            if jsTruthy style && isObjLike style then
              match jget style "language" with
              | some (.num id) => (FEISHU_CODE_LANGUAGE_ID_TO_MARKDOWN id).getD ""
              | some (.str s) => normalizeCodeFenceLanguage s
              | _ => ""
            else ""
          | none => ""
        let resolved :=
          if resolved = "" then
            match jget code "language" with
            | some (.str s) => normalizeCodeFenceLanguage s
            | some (.num id) => (FEISHU_CODE_LANGUAGE_ID_TO_MARKDOWN id).getD ""
            | _ => ""
          else resolved
        inferCodeFenceLanguage resolved content
    | none => ""

def toPositiveInteger (value : Option JsonV) : Option Nat :=
  match value with
  | some (.num n) => if n > 0 then some n.toNat else none
  | some (.str s) =>
    match jsStringToNat s.data with
    | some n => if n > 0 then some n else none
    | none => none
  | _ => none

def readOrderedKeysHit (v : JsonV) : List String → Option Nat
  | [] => none
  | k :: rest =>
    match toPositiveInteger (jget v k) with
    | some n => some n
    | none => readOrderedKeysHit v rest

def readOrderedNestedHit (v : JsonV) : List String → Option Nat
  | [] => none
  | nk :: rest =>
    match jget v nk with
    | some nested =>
      if jsTruthy nested && isObjLike nested then
        match readOrderedKeysHit nested ORDERED_LIST_NUMBER_KEYS with
        | some n => some n
        | none => readOrderedNestedHit v rest
      else readOrderedNestedHit v rest
    | none => readOrderedNestedHit v rest

def readOrderedNumber (value : Option JsonV) : Option Nat :=
  match value with
  | some v =>
    if jsTruthy v && isObjLike v then
      match readOrderedKeysHit v ORDERED_LIST_NUMBER_KEYS with
      | some n => some n
      | none => readOrderedNestedHit v ["style", "list_style", "listStyle"]
    else none
  | none => none

def getOrderedMarkerGroupKey (context : BlockRenderContext) (i : Nat) (listDepth : Nat) :
    String :=
  let rootKey := "root:depth:" ++ String.mk (natToChars listDepth)
  match getBlockMeta context i with
  | some meta =>
    match strCursor meta.parentId with
    | some p => "parent:" ++ p ++ ":depth:" ++ String.mk (natToChars listDepth)
    | none => rootKey
  | none => rootKey

/-- `Map.set` on the counters map. -/
def setCounter (counters : List (String × Nat)) (k : String) (v : Nat) :
    List (String × Nat) :=
  match counters with
  | [] => [(k, v)]
  | (k0, v0) :: rest =>
    if k0 = k then (k0, v) :: rest else (k0, v0) :: setCounter rest k v

/-- `resolveOrderedListMarker`; the mutated counter map is returned. -/
def resolveOrderedListMarker (i : Nat) (block : JsonV) (listDepth : Nat)
    (context : BlockRenderContext) (state : List (String × Nat)) :
    Nat × List (String × Nat) :=
  let groupKey := getOrderedMarkerGroupKey context i listDepth
  match readOrderedNumber (jget block "ordered") with
  | some n => (n, setCounter state groupKey n)
  | none =>
    match readOrderedNumber (some block) with
    | some n => (n, setCounter state groupKey n)
    | none =>
      let previous := (state.lookup groupKey).getD 0
      (previous + 1, setCounter state groupKey (previous + 1))

/-- Replace every newline run by a single literal break tag (model of
`replace(/\n+/g, '<br>')`). -/
def newlinesToBrGo : List Char → Bool → List Char
  | [], _ => []
  | c :: rest, inRun =>
    if c = '\n' then
      if inRun then newlinesToBrGo rest true
      else '<' :: 'b' :: 'r' :: '>' :: newlinesToBrGo rest true
    else c :: newlinesToBrGo rest false

def newlinesToBr (s : List Char) : List Char := newlinesToBrGo s false

def normalizeTableCellText (value : String) : String :=
  let step1 := newlinesToBr (replaceCrLf value.data)
  let step2 := step1.flatMap (fun c => if c = '|' then ['\\', '|'] else [c])
  String.mk (jsTrim step2)

def renderMarkdownTableRow (cells : List String) : String :=
  String.mk ('|' :: ' ' :: joinSep " | ".data (cells.map String.data) ++ [' ', '|'])

def resolveTableCell (value : JsonV) (context : BlockRenderContext) : String :=
  match value with
  | .str s =>
    match blockMetaById context s with
    | some meta => normalizeTableCellText (extractBlockText meta.block true)
    | none => normalizeTableCellText s
  | _ =>
    if isObjLike value then
      match readBlockIdentifier value with
      | some blockId =>
        match blockMetaById context blockId with
        | some meta => normalizeTableCellText (extractBlockText meta.block true)
        | none => normalizeTableCellText (extractText value true)
      | none => normalizeTableCellText (extractText value true)
    else normalizeTableCellText ""

/-- `readTableRow`; rows nested inside a record recurse through the
record fields, with `sizeOf` strictly decreasing, so the `sizeOf`-sized
fuel of the wrappers below never runs out.  Collecting the non-empty
parsed rows of an array (`readTableRowsFromValue`) appears inline as a
fold over the row list. -/
def readTableRowF (context : BlockRenderContext) : Nat → JsonV → List String
  | 0, _ => []
  | fuel + 1, value =>
    match value with
    | .arr cells => cells.map (fun cell => resolveTableCell cell context)
    | .obj fields =>
      let rowsOf := fun (v : JsonV) =>
        match v with
        | JsonV.arr rows =>
          rows.foldr (fun row acc =>
            let parsed := readTableRowF context fuel row
            if parsed.isEmpty then acc else parsed :: acc) []
        | _ => ([] : List (List String))
      let fromCells := match jget (JsonV.obj fields) "cells" with
        | some c => rowsOf c
        | none => []
      if !fromCells.isEmpty then fromCells.headD []
      else
        let fromValues := match jget (JsonV.obj fields) "values" with
          | some c => rowsOf c
          | none => []
        if !fromValues.isEmpty then fromValues.headD []
        else [resolveTableCell (JsonV.obj fields) context]
    | _ => []

def readTableRowsFromValue (value : JsonV) (context : BlockRenderContext) :
    List (List String) :=
  match value with
  | .arr rows =>
    rows.foldr (fun row acc =>
      let parsed := readTableRowF context (jsonSize value) row
      if parsed.isEmpty then acc else parsed :: acc) []
  | _ => []

def readTableMatrix (block : JsonV) (context : BlockRenderContext) :
    List (List String) :=
  if !isObjLike block then []
  else
    let tablePayload := match jget block "table" with
      | some t => if jsTruthy t && isObjLike t then t else block
      | none => block
    let rows := match jget tablePayload "rows" with
      | some v => readTableRowsFromValue v context
      | none => []
    if !rows.isEmpty then rows
    else
      let cells := match jget tablePayload "cells" with
        | some v => readTableRowsFromValue v context
        | none => []
      if !cells.isEmpty then cells
      else
        let cellIds := match jget tablePayload "cell_ids" with
          | some v => readTableRowsFromValue v context
          | none => []
        if !cellIds.isEmpty then cellIds
        else
          let property := match jget tablePayload "property" with
            | some p => if jsTruthy p && isObjLike p then some p else none
            | none => none
          let rowSize := orElseO (toPositiveInteger (jget tablePayload "row_size"))
            (toPositiveInteger (property.bind (fun p => jget p "row_size")))
          let columnSize := orElseO (toPositiveInteger (jget tablePayload "column_size"))
            (toPositiveInteger (property.bind (fun p => jget p "column_size")))
          match rowSize, columnSize with
          | some rs, some cs =>
            let flatChildren := readChildIdentifiers block
            if flatChildren.length ≥ rs * cs then
              (List.range rs).map (fun row =>
                (List.range cs).map (fun column =>
                  resolveTableCell (.str (flatChildren.getD (row * cs + column) ""))
                    context))
            else []
          | _, _ => []

def renderTableBlock (block : JsonV) (context : BlockRenderContext) : List String :=
  let matrix := readTableMatrix block context
  if matrix.isEmpty then []
  else
    let width := (matrix.map List.length).foldl max 0
    if width = 0 then []
    else
      let normalizedMatrix := matrix.map
        (fun row => row ++ List.replicate (width - row.length) "")
      match normalizedMatrix with
      | [] => []
      | header :: body =>
        renderMarkdownTableRow header
          :: renderMarkdownTableRow (List.replicate width "---")
          :: body.map renderMarkdownTableRow

/-- Collapse every whitespace run to a single space (model of
`replace(/\s+/g, ' ')`). -/
def collapseWsGo : List Char → Bool → List Char
  | [], _ => []
  | c :: rest, inRun =>
    if isJsWs c then
      if inRun then collapseWsGo rest true
      else ' ' :: collapseWsGo rest true
    else c :: collapseWsGo rest false

def collapseWs (s : List Char) : List Char := collapseWsGo s false

def normalizeLine (input : Option String) : String :=
  match input with
  | none => ""
  | some s =>
    if s = "" then ""
    else String.mk (jsTrim (collapseWs (replaceCrLf s.data)))

def normalizeCodeBlockContent (input : Option String) : String :=
  match input with
  | none => ""
  | some s =>
    if s = "" then ""
    else String.mk (jsTrim (replaceCrLf s.data))

def normalizeRawContent (input : Option String) : String :=
  match input with
  | none => ""
  | some s => if s = "" then "" else String.mk (jsTrim s.data)

/-- `renderBlock`; `i` is the identity (position) of `block` in the
top-level block list, and the ordered-marker counter map is threaded
through explicitly. -/
def renderBlock (i : Nat) (block : JsonV) (blockType : String)
    (context : BlockRenderContext) (state : List (String × Nat)) :
    List String × List (String × Nat) :=
  if blockType = "table" then (renderTableBlock block context, state)
  else
    let text := if blockType = "code" then
        normalizeCodeBlockContent (some (extractBlockText block false))
      else normalizeLine (some (extractBlockText block true))
    if text = "" then ([], state)
    else if blockType = "heading1" then (["# " ++ text], state)
    else if blockType = "heading2" then (["## " ++ text], state)
    else if blockType = "heading3" then (["### " ++ text], state)
    else if blockType = "heading4" then (["#### " ++ text], state)
    else if blockType = "heading5" then (["##### " ++ text], state)
    else if blockType = "heading6" then (["###### " ++ text], state)
    else
      let listDepth := getListDepth context i blockType
      let indent := String.mk (List.flatten (List.replicate listDepth "  ".data))
      if blockType = "bullet" then ([indent ++ "- " ++ text], state)
      else if blockType = "ordered" then
        let resolved := resolveOrderedListMarker i block listDepth context state
        ([indent ++ String.mk (natToChars resolved.1) ++ ". " ++ text], resolved.2)
      else if blockType = "todo" then ([indent ++ "- [ ] " ++ text], state)
      else if blockType = "quote" then (["> " ++ text], state)
      else if blockType = "code" then
        let language := getCodeLanguage block text
        (["```" ++ language, text, "```"], state)
      else ([text], state)

/-- Strip an exact prefix, returning the remainder. -/
def stripSeq : List Char → List Char → Option (List Char)
  | [], l => some l
  | _ :: _, [] => none
  | p :: ps, c :: cs => if c = p then stripSeq ps cs else none

/-- Matcher for the patterns of the first three broken-marker repairs:
`m` asterisks, an inline code span over non-backtick non-newline
characters, then `n` asterisks.  Returns the captured code span and the
remaining input. -/
def tryStars (m n : Nat) (l : List Char) : Option (List Char × List Char) :=
  match stripSeq (List.replicate m '*') l with
  | none => none
  | some l1 =>
    match l1 with
    | c :: l2 =>
      if c = backtick then
        let body := l2.takeWhile (fun ch => ch ≠ backtick && ch ≠ '\n')
        let l3 := l2.drop body.length
        if body.isEmpty then none
        else
          match l3 with
          | c2 :: l4 =>
            if c2 = backtick then
              match stripSeq (List.replicate n '*') l4 with
              | none => none
              | some l5 => some (backtick :: (body ++ [backtick]), l5)
            else none
          | [] => none
      else none
    | [] => none

/-- Left-to-right global replacement of the `tryStars` pattern, as
`String.prototype.replace` with a global regex: scanning resumes after
each match.  The length guard keeps only remainder lists that really
shrank (every successful match consumes at least the leading asterisks,
so the guard always holds); together with the fuel — one unit per
consumed character, supplied as the input length by `scanStars` — the
scan is structurally recursive and kernel-reducible. -/
def scanStarsGo (m n : Nat) (wrap : Bool) : Nat → List Char → List Char
  | _, [] => []
  | 0, l => l
  | fuel + 1, c :: rest =>
    match tryStars m n (c :: rest) with
    | some (rep, rem) =>
      if rem.length < (c :: rest).length then
        (if wrap then '*' :: '*' :: rep ++ ['*', '*'] else rep)
          ++ scanStarsGo m n wrap fuel rem
      else c :: scanStarsGo m n wrap fuel rest
    | none => c :: scanStarsGo m n wrap fuel rest

def scanStars (m n : Nat) (wrap : Bool) (l : List Char) : List Char :=
  scanStarsGo m n wrap l.length l

def r4Class (c : Char) : Bool := c ≠ '*' && c ≠ '\n' && c ≠ backtick

/-- Matcher for the lazy group of `\*\*([^*\n`]*?\S)\s+\*\*`: shortest
class run first (lazy), then one non-whitespace character, at least one
whitespace character and a closing `**`. -/
def tryR4From (x : List Char) (l : List Char) : Option (List Char × List Char) :=
  match l with
  | [] => none
  | c :: ls =>
    let finish :=
      if !isJsWs c then
        let sp := ls.takeWhile isJsWs
        if sp.isEmpty then none
        else
          match stripSeq ['*', '*'] (ls.drop sp.length) with
          | some rem => some (x ++ [c], rem)
          | none => none
      else none
    match finish with
    | some r => some r
    | none => if r4Class c then tryR4From (x ++ [c]) ls else none

def tryR4 (l : List Char) : Option (List Char × List Char) :=
  match stripSeq ['*', '*'] l with
  | some l1 =>
    match tryR4From [] l1 with
    | some r => some ('*' :: '*' :: r.1 ++ ['*', '*'], r.2)
    | none => none
  | none => none

def scanR4Go : Nat → List Char → List Char
  | _, [] => []
  | 0, l => l
  | fuel + 1, c :: rest =>
    match tryR4 (c :: rest) with
    | some (rep, rem) =>
      if rem.length < (c :: rest).length then rep ++ scanR4Go fuel rem
      else c :: scanR4Go fuel rest
    | none => c :: scanR4Go fuel rest

def scanR4 (l : List Char) : List Char := scanR4Go l.length l

def normalizeBrokenMarkdownMarkers (line : List Char) : List Char :=
  scanR4 (scanStars 2 4 true (scanStars 4 2 true (scanStars 4 4 false line)))

def removeDoubleStars : List Char → List Char
  | '*' :: '*' :: rest => removeDoubleStars rest
  | c :: rest => c :: removeDoubleStars rest
  | [] => []

def readHeadingMarkerLength (ln : List Char) : Nat :=
  let run := (ln.takeWhile (fun c => c = '#')).length
  let markerLength := min run 6
  if markerLength = 0 then 0
  else if ln[markerLength]? = some ' ' then markerLength
  else 0

def normalizeHeadingText (line : List Char) : List Char :=
  let markerLength := readHeadingMarkerLength line
  if markerLength = 0 then line
  else
    let headingText :=
      jsTrim (collapseWs (removeDoubleStars (line.drop (markerLength + 1))))
    line.take markerLength ++ ' ' :: headingText

def isCodeFenceLine (trimmedLine : List Char) : Bool :=
  List.isPrefixOf "```".data trimmedLine

def nmoLines : List (List Char) → Bool → List (List Char)
  | [], _ => []
  | line :: rest, insideFencedCodeBlock =>
    let trimmed := jsTrim line
    if isCodeFenceLine trimmed then line :: nmoLines rest (!insideFencedCodeBlock)
    else if insideFencedCodeBlock then line :: nmoLines rest insideFencedCodeBlock
    else
      normalizeHeadingText (normalizeBrokenMarkdownMarkers line)
        :: nmoLines rest insideFencedCodeBlock

def normalizeMarkdownOutput (markdown : String) : String :=
  if markdown = "" then ""
  else
    let normalizedInput := replaceCrLf markdown.data
    let hasTrailingNewline := normalizedInput.getLast? = some '\n'
    let lines := splitOnChar '\n' normalizedInput
    let normalizedLines := nmoLines lines false
    let normalized := joinSep ['\n'] normalizedLines
    String.mk
      (if hasTrailingNewline && normalized.getLast? ≠ some '\n' then normalized ++ ['\n']
       else normalized)

def hasMarkdownBody (lines : List String) : Bool :=
  lines.any (fun line =>
    !(jsTrim line.data).isEmpty && ((line.data.dropWhile isJsWs).head? ≠ some '#'))

def compactBlankLinesGo : List String → Bool → List String
  | [], _ => []
  | line :: rest, previousBlank =>
    let blank := (jsTrim line.data).isEmpty
    if blank && previousBlank then compactBlankLinesGo rest previousBlank
    else line :: compactBlankLinesGo rest blank

def compactBlankLines (lines : List String) : List String :=
  compactBlankLinesGo lines false

structure RenderDocxMarkdownOptions where
  title : Option String
  blocks : List JsonV
  rawContent : Option String

def renderDocxMarkdown (options : RenderDocxMarkdownOptions) : String :=
  let blockContext := createBlockRenderContext options.blocks
  let title := normalizeLine options.title
  let initLines : List String := if title ≠ "" then ["# " ++ title, ""] else []
  let step := options.blocks.foldl
    (fun (acc : List String × List (String × Nat) × Nat) block =>
      let i := acc.2.2
      let blockType := getBlockType block
      if hasAncestorBlockType blockContext i "table" then (acc.1, acc.2.1, i + 1)
      else
        let counters := if blockType ≠ "ordered" then [] else acc.2.1
        let rendered := renderBlock i block blockType blockContext counters
        if rendered.1.isEmpty then (acc.1, rendered.2, i + 1)
        else (acc.1 ++ rendered.1 ++ [""], rendered.2, i + 1))
    (initLines, [], 0)
  let lines := step.1
  if lines.isEmpty then
    let raw := normalizeRawContent options.rawContent
    if raw ≠ "" then normalizeMarkdownOutput (raw ++ "\n") else ""
  else
    let lines2 :=
      if !hasMarkdownBody lines then
        let raw := normalizeRawContent options.rawContent
        if raw ≠ "" then lines ++ [raw, ""] else lines
      else lines
    let compacted := compactBlankLines lines2
    let body := String.mk (jsTrim (joinSep ['\n'] (compacted.map String.data)))
    if body ≠ "" then normalizeMarkdownOutput (body ++ "\n") else ""

def isMarkdownHeadingLine (ln : List Char) : Bool :=
  let run := (ln.takeWhile (fun c => c = '#')).length
  decide (1 ≤ run) && decide (run ≤ 6) &&
    (match ln[run]? with
     | some c => isJsWs c
     | none => false)

def hasBodyLoop : List (List Char) → Nat → Bool
  | [], headingCount => decide (headingCount > 1)
  | line :: rest, headingCount =>
    let trimmed := jsTrim line
    if trimmed.isEmpty then hasBodyLoop rest headingCount
    else if isMarkdownHeadingLine trimmed then hasBodyLoop rest (headingCount + 1)
    else true

def hasMarkdownBodyContent (markdown : String) : Bool :=
  hasBodyLoop (splitOnChar '\n' (replaceCrLf markdown.data)) 0

def isIllegalPathChar (c : Char) : Bool :=
  c = '\\' || c = '/' || c = ':' || c = '*' || c = '?' || c = '"'
    || c = '<' || c = '>' || c = '|'

def sanitizePathSegment (input : Option String) (fallback : String) : String :=
  let step1 := collapseWs (jsTrim (match input with
    | some s => s.data
    | none => []))
  let step2 := step1.map (fun c => if isIllegalPathChar c then '-' else c)
  let step3 := (step2.reverse.dropWhile (fun c => c = '.')).reverse
  let step4 := step3.dropWhile (fun c => c = '-')
  let step5 := (step4.reverse.dropWhile (fun c => c = '-')).reverse
  if step5.isEmpty then fallback else String.mk step5

mutual

/-- Computable structural size of a tree (depth bound used as fuel). -/
def treeSize : DocumentTreeNode → Nat
  | .node _ children => 1 + treeListSize children

def treeListSize : List DocumentTreeNode → Nat
  | [] => 0
  | t :: rest => 1 + treeSize t + treeListSize rest

end

/-- All root-to-leaf id paths of a tree (specification helper for the
cycle-truncation claim).  `treeSize t` bounds the tree depth, so the
fuel of `treePaths` never runs out. -/
def treePathsF : Nat → DocumentTreeNode → List (List String)
  | 0, t => [[t.id]]
  | _ + 1, .node i [] => [[i]]
  | fuel + 1, .node i (c :: cs) =>
    ((c :: cs).map (fun child => (treePathsF fuel child).map (fun p => i :: p))).flatten

def treePaths (t : DocumentTreeNode) : List (List String) :=
  treePathsF (treeSize t) t

/-! ## src/client.ts -/

structure TenantAccessTokenCache where
  token : String
  expiredAt : Int
deriving DecidableEq

structure TenantAccessTokenData where
  tenant_access_token : String
  expire : Int
deriving DecidableEq

/-- `getTenantAccessToken` as a state transition: given the cached value
and `now = Date.now()` (milliseconds), either serve the cache or perform
the unauthenticated token request — modelled by the `response` that
request would yield — and repopulate the cache.  The returned flag
records whether a request was performed. -/
def getTenantAccessToken (tokenCache : Option TenantAccessTokenCache) (now : Int)
    (response : TenantAccessTokenData) :
    String × Option TenantAccessTokenCache × Bool :=
  match tokenCache with
  | some cache =>
    if now < cache.expiredAt then (cache.token, some cache, false)
    else
      (response.tenant_access_token,
       some { token := response.tenant_access_token,
              expiredAt := now + (max 60 (response.expire - 120)) * 1000 },
       true)
  | none =>
    (response.tenant_access_token,
     some { token := response.tenant_access_token,
            expiredAt := now + (max 60 (response.expire - 120)) * 1000 },
     true)

structure WikiNodeRaw where
  node_token : Option String
  parent_node_token : Option String
  space_id : Option String
  title : Option String
  obj_type : Option String
  obj_token : Option String
  has_child : Option Bool
deriving DecidableEq

structure WikiNode where
  nodeToken : String
  parentNodeToken : Option String
  spaceId : Option String
  title : Option String
  objType : Option String
  objToken : Option String
  hasChild : Option Bool
deriving DecidableEq

/-- `normalizeWikiNode`: fails when the primary token is missing
(`!node?.node_token` also rejects an empty-string token). -/
def normalizeWikiNode (node : Option WikiNodeRaw) : Option WikiNode :=
  match node with
  | none => none
  | some n =>
    match n.node_token with
    | none => none
    | some t =>
      if t = "" then none
      else some { nodeToken := t
                  parentNodeToken := n.parent_node_token
                  spaceId := n.space_id
                  title := n.title
                  objType := n.obj_type
                  objToken := n.obj_token
                  hasChild := n.has_child }

def shouldTryNextWikiGetNodeCandidate (message : String) : Bool :=
  containsSeq "field validation failed".data (lowerChars message.data)

/-- The outcome one candidate request would produce: a thrown error
message, or a response (already coerced through `response.node ||
response`, so always a raw-node shaped record). -/
inductive WikiCandidateOutcome where
  | failure (message : String)
  | response (raw : WikiNodeRaw)
deriving DecidableEq

def wikiAggregateError (nodeToken : String) (errors : List String) : String :=
  "Failed to resolve wiki node token \"" ++ nodeToken ++ "\": "
    ++ String.mk (joinSep " | ".data (errors.map String.data))

/-- The candidate loop of `getWikiNode`, over the ordered candidate list
paired with the outcome each request would produce. -/
def getWikiNodeGo (nodeToken : String) (errors : List String) :
    List (String × WikiCandidateOutcome) → Except String WikiNode
  | [] => .error (wikiAggregateError nodeToken errors)
  | (path, outcome) :: rest =>
    match outcome with
    | .response raw =>
      match normalizeWikiNode (some raw) with
      | some normalized => .ok normalized
      | none => getWikiNodeGo nodeToken (errors ++ [path ++ ": empty node"]) rest
    | .failure message =>
      let errors2 := errors ++ [path ++ ": " ++ message]
      if shouldTryNextWikiGetNodeCandidate message then getWikiNodeGo nodeToken errors2 rest
      else .error (wikiAggregateError nodeToken errors2)

def getWikiNode (nodeToken : String)
    (candidates : List (String × WikiCandidateOutcome)) : Except String WikiNode :=
  getWikiNodeGo nodeToken [] candidates

/-! ## src/discover.ts -/

structure DocumentDiscovery where
  title : Option String
  links : List String
deriving DecidableEq

structure QueueItem where
  url : String
  depth : Nat
  parentId : Option String
  titleHint : Option String
deriving DecidableEq

/-- The API surface the crawler consumes, abstracted as an oracle: each
call either yields the data the client would return, or fails with the
error message the thrown exception would carry. -/
structure FeishuOracle where
  discoverFromDocx : String → Except String DocumentDiscovery
  getWikiNode : String → Except String WikiNode
  listWikiChildNodes : String → String → Except String (List WikiNode)

/-- Ghost bookkeeping: which branch performed an enqueue. -/
inductive EnqueueSource where
  | docxLink | wikiMapped | wikiChild
deriving DecidableEq

structure EnqueueEvent where
  source : EnqueueSource
  item : QueueItem
deriving DecidableEq

/-- Crawl state.  `fetchLog` and `enqueueLog` are ghost instrumentation
recording every oracle call and every `queue.push`; they are appended to
and never read by the crawl itself. -/
structure CrawlState where
  queue : List QueueItem
  documents : List DocumentItem
  relations : List String
  warnings : List String
  fetchLog : List String
  enqueueLog : List EnqueueEvent
deriving DecidableEq

structure DiscoverOptionsM where
  url : String
  maxDepth : Nat
  maxDocs : Nat

def findDocument (documents : List DocumentItem) (id : String) : Option DocumentItem :=
  documents.find? (fun d => d.id == id)

/-- In-place mutation of the map entry for `id` (the `Map` values keep
their insertion order). -/
def updateDocument (documents : List DocumentItem) (id : String)
    (f : DocumentItem → DocumentItem) : List DocumentItem :=
  documents.map (fun d => if d.id == id then f d else d)

def enqueue (st : CrawlState) (source : EnqueueSource) (item : QueueItem) : CrawlState :=
  { st with
      queue := st.queue ++ [item],
      enqueueLog := st.enqueueLog ++ [{ source := source, item := item }] }

/-- A run of consecutive `queue.push` calls over `items`, in order. -/
def enqueueAll (st : CrawlState) (source : EnqueueSource) (items : List QueueItem) :
    CrawlState :=
  { st with
      queue := st.queue ++ items,
      enqueueLog := st.enqueueLog ++ items.map (fun item => { source := source, item := item }) }

theorem updateDocument_length (documents : List DocumentItem) (id : String)
    (f : DocumentItem → DocumentItem) :
    (updateDocument documents id f).length = documents.length := by
  simp [updateDocument]

theorem enqueue_documents (st : CrawlState) (source : EnqueueSource) (item : QueueItem) :
    (enqueue st source item).documents = st.documents := rfl

theorem foldl_enqueue_documents {α : Type} (g : CrawlState → α → CrawlState)
    (hg : ∀ st x, (g st x).documents = st.documents) (xs : List α) (st : CrawlState) :
    (xs.foldl g st).documents = st.documents := by
  induction xs generalizing st with
  | nil => rfl
  | cons x t ih => rw [List.foldl_cons, ih, hg]

/-- Result of one loop iteration: `stop` models `break` (the crawl ends
with this state), `go` models `continue` (the crawl proceeds). -/
inductive CrawlStep where
  | stop (st : CrawlState)
  | go (st : CrawlState)
deriving DecidableEq

/-- The body of the crawl loop of `discoverDocuments`, for one dequeued
item `next` (with `rest` the remaining queue), following the source's
branch structure. -/
def crawlStep (oracle : FeishuOracle) (options : DiscoverOptionsM)
    (next : QueueItem) (rest : List QueueItem) (st : CrawlState) : CrawlStep :=
  match parseFeishuResource next.url with
    | none =>
      .go
        { st with
            queue := rest,
            warnings := st.warnings ++ ["Skip invalid feishu url: " ++ next.url] }
    | some parsed =>
      let id := resourceId parsed.kind parsed.token
      match findDocument st.documents id with
      | some existing =>
        let merged := mergeParentRelation existing next.parentId st.relations
        .go
          { st with
              queue := rest,
              documents := updateDocument st.documents id (fun _ => merged.1),
              relations := merged.2 }
      | none =>
        if st.documents.length ≥ options.maxDocs then
          .stop
            { st with
                queue := rest,
                warnings := st.warnings ++
                  ["Stop discovery: reached max docs limit "
                    ++ String.mk (natToChars options.maxDocs)] }
        else
          let item : DocumentItem :=
            { id := id
              kind := parsed.kind
              token := parsed.token
              url := parsed.url
              depth := next.depth
              title := next.titleHint
              objKind := none
              objToken := none
              parentId := next.parentId
              parentIds := match next.parentId with
                | some p => if p = "" then [] else [p]
                | none => [] }
          let merged := mergeParentRelation item next.parentId st.relations
          let st1 : CrawlState :=
            { st with
                queue := rest,
                documents := st.documents ++ [merged.1],
                relations := merged.2 }
          match parsed.kind with
          | .docx =>
            let st1a := { st1 with fetchLog := st1.fetchLog ++ ["docx:" ++ parsed.token] }
            match oracle.discoverFromDocx parsed.token with
            | .ok discovered =>
              let st2 :=
                { st1a with
                    documents := updateDocument st1a.documents id
                      (fun d => { d with title := discovered.title }) }
              if next.depth ≥ options.maxDepth then .go st2
              else
                .go
                  (enqueueAll st2 .docxLink
                    (discovered.links.map (fun link =>
                      { url := link, depth := next.depth + 1,
                        parentId := some id, titleHint := none })))
            | .error message =>
              .go
                { st1a with
                    warnings := st1a.warnings ++
                      ["Failed to read " ++ parsed.url ++ ": " ++ message] }
          | .wiki =>
            let st1a :=
              { st1 with fetchLog := st1.fetchLog ++ ["wikiNode:" ++ parsed.token] }
            match oracle.getWikiNode parsed.token with
            | .ok wikiNode =>
              let st2 :=
                { st1a with
                    documents := updateDocument st1a.documents id
                      (fun d =>
                        { d with
                            title := jsOrStr wikiNode.title d.title,
                            objKind := wikiNode.objType,
                            objToken := wikiNode.objToken }) }
              let origin := urlOrigin parsed.url
              let mappedItems : List QueueItem :=
                if strTruthy wikiNode.objType && strTruthy wikiNode.objToken then
                  let mappedKind := mapWikiObjectKind (wikiNode.objType.getD "")
                  if mappedKind ≠ .unknown then
                    [{ url := origin ++ "/" ++ mappedKind.pathStr ++ "/"
                         ++ wikiNode.objToken.getD "",
                       depth := next.depth, parentId := some id,
                       titleHint := wikiNode.title }]
                  else []
                else []
              let st3 := enqueueAll st2 .wikiMapped mappedItems
              if next.depth ≥ options.maxDepth || !(strTruthy wikiNode.spaceId) then
                .go st3
              else
                let st3a :=
                  { st3 with
                      fetchLog := st3.fetchLog ++
                        ["wikiChildren:" ++ wikiNode.spaceId.getD "" ++ ":"
                          ++ wikiNode.nodeToken] }
                match oracle.listWikiChildNodes (wikiNode.spaceId.getD "")
                    wikiNode.nodeToken with
                | .ok children =>
                  .go
                    (enqueueAll st3a .wikiChild
                      (children.map (fun child =>
                        { url := origin ++ "/wiki/" ++ child.nodeToken,
                          depth := next.depth + 1, parentId := some id,
                          titleHint := child.title })))
                | .error message =>
                  .go
                    { st3a with
                        warnings := st3a.warnings ++
                          ["Failed to read " ++ parsed.url ++ ": " ++ message] }
            | .error message =>
              .go
                { st1a with
                    warnings := st1a.warnings ++
                      ["Failed to read " ++ parsed.url ++ ": " ++ message] }
          | _ =>
            .go
              { st1 with
                  warnings := st1.warnings ++
                    ["Skip recursion for unsupported resource kind: "
                      ++ parsed.kind.pathStr ++ " (" ++ parsed.url ++ ")"] }
/-- A continuing iteration either keeps the document count and dequeues
(the leftover queue is exactly `rest`), or adds exactly one document,
which the `maxDocs` guard only permits strictly below the cap. -/
theorem crawlStep_go_measure (oracle : FeishuOracle) (options : DiscoverOptionsM)
    (next : QueueItem) (rest : List QueueItem) (st st2 : CrawlState)
    (hs : crawlStep oracle options next rest st = .go st2) :
    (st2.documents.length = st.documents.length ∧ st2.queue = rest)
    ∨ (st2.documents.length = st.documents.length + 1
        ∧ st.documents.length < options.maxDocs) := by
  simp only [crawlStep] at hs
  repeat' split at hs
  all_goals cases hs
  all_goals (try simp [enqueueAll, updateDocument_length])
  all_goals first
    | trivial
    | omega
    | (refine Or.inl ⟨?_, ?_⟩ <;> first | rfl | trivial | omega)
    | (refine Or.inr ⟨?_, ?_⟩ <;> omega)
    | (left; first | rfl | trivial | omega)
    | (right; first | rfl | trivial | omega)
    | (left; constructor <;> first | rfl | trivial | omega)
    | (right; constructor <;> first | rfl | trivial | omega)

/-- The crawl loop of `discoverDocuments`: one `crawlStep` per dequeued
item.  Termination: by `crawlStep_go_measure` the pair
`(maxDocs - #documents, queue length)` decreases lexicographically on
every continuing iteration. -/
def crawlLoop (oracle : FeishuOracle) (options : DiscoverOptionsM) (st : CrawlState) :
    CrawlState :=
  match hq : st.queue with
  | [] => st
  | next :: rest =>
    match hs : crawlStep oracle options next rest st with
    | .stop st2 => st2
    | .go st2 => crawlLoop oracle options st2
termination_by (options.maxDocs - st.documents.length, st.queue.length)
decreasing_by
  rcases crawlStep_go_measure oracle options next rest st st2 hs with ⟨hd, hqe⟩ | ⟨hd, hlt⟩
  · rw [hd, hqe, hq]
    apply Prod.Lex.right
    simp [List.length_cons]
  · apply Prod.Lex.left
    omega

/-- Any property preserved by every loop iteration holds for the final
crawl state. -/
theorem crawlLoop_inv (oracle : FeishuOracle) (options : DiscoverOptionsM)
    (P : CrawlState → Prop)
    (hstep : ∀ next rest st st2, st.queue = next :: rest → P st →
        (crawlStep oracle options next rest st = .stop st2
          ∨ crawlStep oracle options next rest st = .go st2) → P st2) :
    ∀ st, P st → P (crawlLoop oracle options st) := by
  intro st
  induction st using crawlLoop.induct oracle options with
  | case1 x heq =>
    intro hp
    rw [crawlLoop]
    split
    · exact hp
    · next n r heq2 => rw [heq] at heq2; exact absurd heq2 (by simp)
  | case2 x next rest heq st2 hs =>
    intro hp
    rw [crawlLoop]
    split
    · next heq2 => rw [heq2] at heq; exact absurd heq (by simp)
    · next n r heq2 =>
      rw [heq] at heq2
      injection heq2 with h1 h2
      subst h1
      subst h2
      split
      · next st3 hs2 =>
        rw [hs] at hs2
        injection hs2 with h3
        subst h3
        exact hstep next rest x st2 heq hp (Or.inl hs)
      · next st3 hs2 => rw [hs] at hs2; exact absurd hs2 (by simp)
  | case3 x next rest heq st2 hs ih =>
    intro hp
    rw [crawlLoop]
    split
    · next heq2 => rw [heq2] at heq; exact absurd heq (by simp)
    · next n r heq2 =>
      rw [heq] at heq2
      injection heq2 with h1 h2
      subst h1
      subst h2
      split
      · next st3 hs2 => rw [hs] at hs2; exact absurd hs2 (by simp)
      · next st3 hs2 =>
        rw [hs] at hs2
        injection hs2 with h3
        subst h3
        exact ih (hstep next rest x st2 heq hp (Or.inr hs))

/-- The only `break` of the loop (the `maxDocs` stop) changes no
documents and performs no enqueue. -/
theorem crawlStep_stop_state (oracle : FeishuOracle) (options : DiscoverOptionsM)
    (next : QueueItem) (rest : List QueueItem) (st st2 : CrawlState)
    (hs : crawlStep oracle options next rest st = .stop st2) :
    st2.documents = st.documents ∧ st2.queue = rest
      ∧ st2.enqueueLog = st.enqueueLog ∧ st2.relations = st.relations := by
  simp only [crawlStep] at hs
  repeat' split at hs
  all_goals cases hs
  all_goals exact ⟨rfl, rfl, rfl, rfl⟩

theorem mem_updateDocument {documents : List DocumentItem} {i : String}
    {f : DocumentItem → DocumentItem} {x : DocumentItem}
    (h : x ∈ updateDocument documents i f) :
    ∃ d ∈ documents, x = f d ∨ x = d := by
  simp only [updateDocument, List.mem_map] at h
  obtain ⟨d, hd, hx⟩ := h
  by_cases hid : (d.id == i) = true
  · exact ⟨d, hd, Or.inl (by rw [← hx, if_pos hid])⟩
  · exact ⟨d, hd, Or.inr (by rw [← hx, if_neg hid])⟩

theorem findDocument_mem {documents : List DocumentItem} {i : String} {d : DocumentItem}
    (h : findDocument documents i = some d) : d ∈ documents :=
  List.mem_of_find?_eq_some h

/-- `mergeParentRelation` leaves `parentIds` unchanged (absent, empty or
already-seen parent) or appends the one new parent at the end. -/
theorem mergeParentRelation_parentIds (item : DocumentItem) (parentId : Option String)
    (relations : List String) :
    (mergeParentRelation item parentId relations).1.parentIds = item.parentIds
    ∨ ∃ p, parentId = some p ∧ p ≠ "" ∧ p ∉ item.parentIds
        ∧ (mergeParentRelation item parentId relations).1.parentIds
            = item.parentIds ++ [p] := by
  cases parentId with
  | none => exact Or.inl rfl
  | some p =>
    by_cases hp : p = ""
    · exact Or.inl (by simp [mergeParentRelation, hp])
    · by_cases hmem : p ∈ item.parentIds
      · exact Or.inl (by simp [mergeParentRelation, hp, hmem])
      · exact Or.inr ⟨p, rfl, hp, hmem, by simp [mergeParentRelation, hp, hmem]⟩

theorem mergeParentRelation_nodup {item : DocumentItem} {parentId : Option String}
    {relations : List String} (h : item.parentIds.Nodup) :
    (mergeParentRelation item parentId relations).1.parentIds.Nodup := by
  rcases mergeParentRelation_parentIds item parentId relations with heq | ⟨p, -, -, hmem, heq⟩
  · rw [heq]; exact h
  · rw [heq]
    simp [List.nodup_append, h, hmem]

/-- One loop iteration keeps every document's `parentIds` free of
duplicates: existing items are only updated through
`mergeParentRelation` (or title-only patches), and a freshly added item
starts from an empty or singleton `parentIds`. -/
theorem crawlStep_nodup (oracle : FeishuOracle) (options : DiscoverOptionsM)
    (next : QueueItem) (rest : List QueueItem) (st st2 : CrawlState)
    (hs : crawlStep oracle options next rest st = .stop st2
      ∨ crawlStep oracle options next rest st = .go st2)
    (hdocs : ∀ d ∈ st.documents, d.parentIds.Nodup) :
    ∀ d ∈ st2.documents, d.parentIds.Nodup := by
  rcases hs with hs | hs
  · obtain ⟨hdv, -, -, -⟩ := crawlStep_stop_state oracle options next rest st st2 hs
    intro d hd
    rw [hdv] at hd
    exact hdocs d hd
  · simp only [crawlStep] at hs
    repeat' split at hs
    all_goals cases hs
    all_goals intro d hd
    all_goals try exact hdocs d hd
    all_goals try (rcases List.mem_append.mp hd with h0 | h0
                   · exact hdocs _ h0
                   · simp only [List.mem_singleton] at h0
                     subst h0
                     apply mergeParentRelation_nodup
                     simp)
    all_goals (rcases mem_updateDocument hd with ⟨d0, hd0, h | h⟩ <;> subst h)
    all_goals try exact hdocs d0 hd0
    all_goals try exact hdocs d hd0
    all_goals try (apply mergeParentRelation_nodup; apply hdocs
                   exact findDocument_mem (by assumption))
    all_goals (rcases List.mem_append.mp hd0 with h0 | h0)
    all_goals try exact hdocs d0 h0
    all_goals try exact hdocs d h0
    all_goals try (simp only [List.mem_singleton] at h0; subst h0)
    all_goals (apply mergeParentRelation_nodup; simp)

/-- With `maxDepth = 0`, an iteration on a depth-0 item can only enqueue
wiki-mapped objects, at depth 0: the `docxLink` and `wikiChild` branches
require `next.depth < maxDepth`. -/
theorem crawlStep_depth0 (oracle : FeishuOracle) (options : DiscoverOptionsM)
    (next : QueueItem) (rest : List QueueItem) (st st2 : CrawlState)
    (hmd : options.maxDepth = 0) (hnext : next.depth = 0)
    (hs : crawlStep oracle options next rest st = .stop st2
      ∨ crawlStep oracle options next rest st = .go st2) :
    ∃ newItems : List QueueItem,
      st2.queue = rest ++ newItems
      ∧ (∀ q ∈ newItems, q.depth = 0)
      ∧ st2.enqueueLog = st.enqueueLog
          ++ newItems.map (fun i => { source := EnqueueSource.wikiMapped, item := i }) := by
  rcases hs with hs | hs
  · obtain ⟨-, hqv, hev, -⟩ := crawlStep_stop_state oracle options next rest st st2 hs
    exact ⟨[], by simp [hqv], by simp, by simp [hev]⟩
  · simp only [crawlStep] at hs
    repeat' split at hs
    all_goals cases hs
    all_goals first
      | (exfalso; omega)
      | (exfalso
         simp only [Bool.not_eq_true, Bool.or_eq_false_iff, decide_eq_false_iff_not] at *
         omega)
      | (refine ⟨_, rfl, ?_, rfl⟩; intro q hq
         simp only [List.mem_singleton] at hq; subst hq; exact hnext)
      | (refine ⟨[], ?_, ?_, ?_⟩ <;> (simp [enqueueAll]; done))

def initialCrawlState (rootUrl : String) : CrawlState :=
  { queue := [{ url := rootUrl, depth := 0, parentId := none, titleHint := none }],
    documents := [], relations := [], warnings := [], fetchLog := [], enqueueLog := [] }

/-- The crawl of `discoverDocuments` up to its final state (the
instrumented counterpart of the result assembly below). -/
def discoverCrawl (options : DiscoverOptionsM) (oracle : FeishuOracle) :
    Except String CrawlState :=
  match parseFeishuResource options.url with
  | none => .error "Invalid Feishu document url. Example: https://my.feishu.cn/docx/<token>"
  | some root => .ok (crawlLoop oracle options (initialCrawlState root.url))

structure DiscoverResultM where
  rootUrl : String
  total : Nat
  warnings : List String
  documents : List DocumentItem
  relations : List DocumentRelation
  tree : List DocumentTreeNode

def discoverDocuments (options : DiscoverOptionsM) (oracle : FeishuOracle) :
    Except String DiscoverResultM :=
  match parseFeishuResource options.url with
  | none => .error "Invalid Feishu document url. Example: https://my.feishu.cn/docx/<token>"
  | some root =>
    let st := crawlLoop oracle options (initialCrawlState root.url)
    let relationList := serializeRelations st.relations
    .ok { rootUrl := root.url
          total := st.documents.length
          warnings := st.warnings
          documents := st.documents
          relations := relationList
          tree := buildDocumentTree st.documents relationList }

theorem crawlLoop_docs_le (oracle : FeishuOracle) (options : DiscoverOptionsM)
    (st : CrawlState) (h : st.documents.length ≤ options.maxDocs) :
    (crawlLoop oracle options st).documents.length ≤ options.maxDocs := by
  refine crawlLoop_inv oracle options (fun s => s.documents.length ≤ options.maxDocs)
    ?_ st h
  intro next rest s s2 hq hp hs
  rcases hs with hs | hs
  · obtain ⟨hdv, -, -, -⟩ := crawlStep_stop_state oracle options next rest s s2 hs
    rw [hdv]; exact hp
  · rcases crawlStep_go_measure oracle options next rest s s2 hs with ⟨hd, -⟩ | ⟨hd, hlt⟩ <;>
      omega

theorem crawlLoop_depth0 (oracle : FeishuOracle) (options : DiscoverOptionsM)
    (hmd : options.maxDepth = 0) (st : CrawlState)
    (h : (∀ q ∈ st.queue, q.depth = 0)
        ∧ (∀ e ∈ st.enqueueLog, e.source = EnqueueSource.wikiMapped ∧ e.item.depth = 0)) :
    ∀ e ∈ (crawlLoop oracle options st).enqueueLog,
      e.source = EnqueueSource.wikiMapped ∧ e.item.depth = 0 := by
  have hstep : ∀ next rest s s2, s.queue = next :: rest →
      ((∀ q ∈ s.queue, q.depth = 0)
        ∧ (∀ e ∈ s.enqueueLog, e.source = EnqueueSource.wikiMapped ∧ e.item.depth = 0)) →
      (crawlStep oracle options next rest s = .stop s2
        ∨ crawlStep oracle options next rest s = .go s2) →
      ((∀ q ∈ s2.queue, q.depth = 0)
        ∧ (∀ e ∈ s2.enqueueLog, e.source = EnqueueSource.wikiMapped ∧ e.item.depth = 0)) := by
    intro next rest s s2 hq hp hs
    obtain ⟨newItems, hqe, hni, hle⟩ := crawlStep_depth0 oracle options next rest s s2 hmd
      (hp.1 next (hq.symm ▸ List.mem_cons_self next rest)) hs
    constructor
    · intro q hqm
      rw [hqe] at hqm
      rcases List.mem_append.mp hqm with h1 | h1
      · exact hp.1 q (by rw [hq]; exact List.mem_cons_of_mem _ h1)
      · exact hni q h1
    · intro e hem
      rw [hle] at hem
      rcases List.mem_append.mp hem with h1 | h1
      · exact hp.2 e h1
      · obtain ⟨i, hi, rfl⟩ := List.mem_map.mp h1
        exact ⟨rfl, hni i hi⟩
  exact (crawlLoop_inv oracle options _ hstep st h).2

theorem crawlLoop_nodup (oracle : FeishuOracle) (options : DiscoverOptionsM)
    (st : CrawlState) (h : ∀ d ∈ st.documents, d.parentIds.Nodup) :
    ∀ d ∈ (crawlLoop oracle options st).documents, d.parentIds.Nodup := by
  refine crawlLoop_inv oracle options (fun s => ∀ d ∈ s.documents, d.parentIds.Nodup)
    ?_ st h
  intro next rest s s2 hq hds hs
  exact crawlStep_nodup oracle options next rest s s2 hs hds

/-! ### A concrete crawl scenario

A wiki root whose node maps to a docx object: the crawl discovers the
wiki node, enqueues the mapped docx at the same depth, then discovers
the docx (which links to nothing further). -/

def cOracle : FeishuOracle :=
  { discoverFromDocx := fun _ => .ok { title := some "Doc", links := [] },
    getWikiNode := fun _ => .ok
      { nodeToken := "W", parentNodeToken := none, spaceId := none,
        title := some "WTitle", objType := some "docx", objToken := some "T",
        hasChild := none },
    listWikiChildNodes := fun _ _ => .ok [] }

def cOptions : DiscoverOptionsM :=
  { url := "https://my.feishu.cn/wiki/W", maxDepth := 0, maxDocs := 10 }

def cDoc1 : DocumentItem :=
  { id := "wiki:W", kind := .wiki, token := "W",
    url := "https://my.feishu.cn/wiki/W", depth := 0, title := some "WTitle",
    objKind := some "docx", objToken := some "T", parentId := none, parentIds := [] }

def cDoc2 : DocumentItem :=
  { id := "docx:T", kind := .docx, token := "T",
    url := "https://my.feishu.cn/docx/T", depth := 0, title := some "Doc",
    objKind := none, objToken := none, parentId := some "wiki:W",
    parentIds := ["wiki:W"] }

def cQm : QueueItem :=
  { url := "https://my.feishu.cn/docx/T", depth := 0,
    parentId := some "wiki:W", titleHint := some "WTitle" }

/-- State after the first iteration (wiki node processed, mapped docx
enqueued at depth 0). -/
def cSt1 : CrawlState :=
  { queue := [cQm], documents := [cDoc1], relations := [],
    warnings := [], fetchLog := ["wikiNode:W"],
    enqueueLog := [{ source := .wikiMapped, item := cQm }] }

/-- Final state (mapped docx processed, queue exhausted). -/
def cFinal : CrawlState :=
  { queue := [], documents := [cDoc1, cDoc2], relations := ["wiki:W=>docx:T"],
    warnings := [], fetchLog := ["wikiNode:W", "docx:T"],
    enqueueLog := [{ source := .wikiMapped, item := cQm }] }

theorem crawlLoop_run :
    crawlLoop cOracle cOptions (initialCrawlState "https://my.feishu.cn/wiki/W")
      = cFinal := by
  have h1 : crawlLoop cOracle cOptions (initialCrawlState "https://my.feishu.cn/wiki/W")
      = crawlLoop cOracle cOptions cSt1 := by
    rw [crawlLoop]; rfl
  have h2 : crawlLoop cOracle cOptions cSt1 = crawlLoop cOracle cOptions cFinal := by
    rw [crawlLoop]; rfl
  have h3 : crawlLoop cOracle cOptions cFinal = cFinal := by
    rw [crawlLoop]; rfl
  rw [h1, h2, h3]

theorem crawl_run_eval : discoverCrawl cOptions cOracle = .ok cFinal := by
  show Except.ok (crawlLoop cOracle cOptions
    (initialCrawlState "https://my.feishu.cn/wiki/W")) = Except.ok cFinal
  rw [crawlLoop_run]

/-! ## src/export.ts (export planning) -/

structure ExportPlanEntry where
  item : DocumentItem
  pathSegments : List String
deriving DecidableEq

/-- The slice of the persisted manifest that export planning reads. -/
structure DiscoverManifest where
  documents : List DocumentItem
  tree : List DocumentTreeNode

def isWikiMappedDocxChild (item : DocumentItem) (parentItem : Option DocumentItem) : Bool :=
  match parentItem with
  | none => false
  | some parent =>
    if item.kind ≠ .docx || parent.kind ≠ .wiki then false
    else if mapWikiObjectKind (parent.objKind.getD "") ≠ .docx then false
    else strTruthy parent.objToken && parent.objToken == some item.token

/-- `createUniqueSegment`; the mutated counter map is returned. -/
def createUniqueSegment (parentSegments : List String) (segment : String)
    (pathCounters : List (String × Nat)) : String × List (String × Nat) :=
  let parentKey := String.mk (joinSep ['/'] (parentSegments.map String.data))
  let baseKey := parentKey ++ "::" ++ segment
  let count := (pathCounters.lookup baseKey).getD 0 + 1
  let counters := setCounter pathCounters baseKey count
  (if count = 1 then segment
   else segment ++ "-" ++ String.mk (natToChars count), counters)

/-- `walkTree`; the mutated `pathCounters` and `plans` are threaded as
the state pair.  The fuel only bounds the recursion depth (one unit per
tree level, bounded by the tree size supplied by `buildExportPlan`). -/
def walkTreeF (documentsById : List (String × DocumentItem)) :
    Nat → DocumentTreeNode → Option DocumentItem → List String → List String →
    List (String × Nat) × List ExportPlanEntry →
    List (String × Nat) × List ExportPlanEntry
  | 0, _, _, _, _, state => state
  | fuel + 1, node, parentItem, parentSegments, trail, state =>
    match documentsById.lookup node.id with
    | none => state
    | some item =>
      if node.id ∈ trail then state
      else if isWikiMappedDocxChild item parentItem then state
      else
        let rawSegment :=
          sanitizePathSegment item.title (item.kind.pathStr ++ "-" ++ item.token)
        let seg := createUniqueSegment parentSegments rawSegment state.1
        let pathSegments := parentSegments ++ [seg.1]
        let state2 := (seg.2, state.2 ++ [{ item := item, pathSegments := pathSegments }])
        node.children.foldl
          (fun acc child =>
            walkTreeF documentsById fuel child (some item) pathSegments
              (node.id :: trail) acc)
          state2

def buildFallbackTree (documents : List DocumentItem) : List DocumentTreeNode :=
  documents.map (fun item => .node item.id [])

/-- `buildExportPlan`.  `documentsById` is the id-keyed map the caller
builds from the manifest's document list (`new Map` keeps the last entry
for a duplicated key, hence the reversal). -/
def buildExportPlan (manifest : DiscoverManifest) : List ExportPlanEntry :=
  let documentsById := manifest.documents.reverse.map (fun item => (item.id, item))
  let roots := if manifest.tree.length > 0 then manifest.tree
    else buildFallbackTree manifest.documents
  (roots.foldl
    (fun acc root => walkTreeF documentsById (1 + treeListSize roots) root none [] [] acc)
    ([], [])).2

/-! ### Path uniqueness infrastructure for the export walk -/

theorem natDigitsF_ne_nil (fuel n : Nat) (h : 1 ≤ fuel) : natDigitsF fuel n ≠ [] := by
  match fuel, h with
  | f + 1, _ =>
    rw [natDigitsF]
    by_cases h10 : n < 10
    · rw [if_pos h10]; simp
    · rw [if_neg h10]; simp

theorem digitChar_toNat : ∀ k, k < 10 → (Char.ofNat (k + 48)).toNat = k + 48 := by decide

theorem natDigitsF_val : ∀ (n fuel acc : Nat), n + 1 ≤ fuel →
    (natDigitsF fuel n).foldl (fun a c => a * 10 + (c.toNat - 48)) acc
      = acc * 10 ^ (natDigitsF fuel n).length + n := by
  intro n
  induction n using Nat.strong_induction_on with
  | _ n ih =>
    intro fuel acc hf
    match fuel, hf with
    | f + 1, _ =>
      rw [natDigitsF]
      by_cases h10 : n < 10
      · rw [if_pos h10]
        simp only [List.foldl, List.length_cons, List.length_nil, pow_one, pow_zero]
        rw [digitChar_toNat (n % 10) (Nat.mod_lt _ (by decide))]
        have := Nat.mod_eq_of_lt h10
        omega
      · rw [if_neg h10]
        rw [List.foldl_append]
        have hn10 : n / 10 < n := Nat.div_lt_self (by omega) (by decide)
        have hrec := ih (n / 10) hn10 f acc (by omega)
        rw [hrec]
        simp only [List.foldl, List.length_append, List.length_cons, List.length_nil]
        rw [digitChar_toNat (n % 10) (Nat.mod_lt _ (by decide))]
        rw [pow_succ]
        rw [← mul_assoc]
        have hdm := Nat.div_add_mod n 10
        generalize acc * 10 ^ (natDigitsF f (n / 10)).length = B
        rw [Nat.add_mul]
        omega

theorem natToChars_inj {n m : Nat} (h : natToChars n = natToChars m) : n = m := by
  have hn := natDigitsF_val n (n + 1) 0 (le_refl _)
  have hm := natDigitsF_val m (m + 1) 0 (le_refl _)
  rw [natToChars, natToChars] at h
  rw [h] at hn
  rw [hm] at hn
  omega

theorem natToChars_ne_nil (n : Nat) : natToChars n ≠ [] :=
  natDigitsF_ne_nil _ _ (by omega)

/-- The raw (pre-uniquification) path segment of a document. -/
def rawSegOf (item : DocumentItem) : String :=
  sanitizePathSegment item.title (item.kind.pathStr ++ "-" ++ item.token)

/-- The segment emitted for the `c`-th occurrence of a base key. -/
def segOfCount (raw : String) (c : Nat) : String :=
  if c = 1 then raw else raw ++ "-" ++ String.mk (natToChars c)

def parentKeyOf (ps : List String) : String :=
  String.mk (joinSep ['/'] (ps.map String.data))

def baseKeyOf (ps : List String) (raw : String) : String :=
  parentKeyOf ps ++ "::" ++ raw

theorem segOfCount_inj_count {raw : String} {c1 c2 : Nat} (h1 : 1 ≤ c1) (h2 : 1 ≤ c2)
    (h : segOfCount raw c1 = segOfCount raw c2) : c1 = c2 := by
  by_cases e1 : c1 = 1 <;> by_cases e2 : c2 = 1
  · omega
  · exfalso
    rw [segOfCount, segOfCount, if_pos e1, if_neg e2] at h
    have hd := congrArg (fun s => s.data.length) h
    simp only [String.data_append, List.length_append] at hd
    have hlen : 0 < (natToChars c2).length := List.length_pos.mpr (natToChars_ne_nil c2)
    simp at hd
    omega
  · exfalso
    rw [segOfCount, segOfCount, if_neg e1, if_pos e2] at h
    have hd := congrArg (fun s => s.data.length) h
    simp only [String.data_append, List.length_append] at hd
    have hlen : 0 < (natToChars c1).length := List.length_pos.mpr (natToChars_ne_nil c1)
    simp at hd
    omega
  · rw [segOfCount, segOfCount, if_neg e1, if_neg e2] at h
    have hd := congrArg String.data h
    simp only [String.data_append] at hd
    have h2' := List.append_cancel_left hd
    exact natToChars_inj h2'

theorem append_dash_cross {a b d1 d2 : List Char}
    (hd : a ++ ('-' :: d1) = b ++ ('-' :: d2))
    (hne : a ≠ b) (hp1 : ¬(a ++ ['-'] <+: b)) (hp2 : ¬(b ++ ['-'] <+: a)) : False := by
  rcases Nat.le_total a.length b.length with hle | hle
  · by_cases heq : a.length = b.length
    · exact hne (List.append_inj_left hd heq)
    · apply hp1
      have h1 : a ++ ['-'] <+: b ++ ('-' :: d2) := by
        refine ⟨d1, ?_⟩
        rw [List.append_assoc]
        simpa using hd
      have h2 : b <+: b ++ ('-' :: d2) := List.prefix_append _ _
      refine List.prefix_of_prefix_length_le h1 h2 ?_
      simp
      omega
  · by_cases heq : b.length = a.length
    · exact hne (List.append_inj_left hd heq.symm)
    · apply hp2
      have h1 : b ++ ['-'] <+: a ++ ('-' :: d1) := by
        refine ⟨d2, ?_⟩
        rw [List.append_assoc]
        simpa using hd.symm
      have h2 : a <+: a ++ ('-' :: d1) := List.prefix_append _ _
      refine List.prefix_of_prefix_length_le h1 h2 ?_
      simp
      omega

theorem segOfCount_cross {r1 r2 : String} {c1 c2 : Nat}
    (hne : r1 ≠ r2)
    (hp1 : ¬((r1 ++ "-").data <+: r2.data)) (hp2 : ¬((r2 ++ "-").data <+: r1.data)) :
    segOfCount r1 c1 ≠ segOfCount r2 c2 := by
  intro h
  have hne' : r1.data ≠ r2.data := fun hx => hne (String.ext hx)
  have hp1' : ¬(r1.data ++ ['-'] <+: r2.data) := by
    simpa only [String.data_append] using hp1
  have hp2' : ¬(r2.data ++ ['-'] <+: r1.data) := by
    simpa only [String.data_append] using hp2
  by_cases e1 : c1 = 1 <;> by_cases e2 : c2 = 1
  · rw [segOfCount, segOfCount, if_pos e1, if_pos e2] at h
    exact hne h
  · rw [segOfCount, segOfCount, if_pos e1, if_neg e2] at h
    apply hp2'
    refine ⟨natToChars c2, ?_⟩
    have hd := congrArg String.data h
    simp only [String.data_append, List.append_assoc, List.singleton_append] at hd ⊢
    exact hd.symm
  · rw [segOfCount, segOfCount, if_neg e1, if_pos e2] at h
    apply hp1'
    refine ⟨natToChars c1, ?_⟩
    have hd := congrArg String.data h
    simp only [String.data_append, List.append_assoc, List.singleton_append] at hd ⊢
    exact hd
  · rw [segOfCount, segOfCount, if_neg e1, if_neg e2] at h
    have hd := congrArg String.data h
    simp only [String.data_append, List.append_assoc, List.singleton_append] at hd
    exact append_dash_cross hd hne' hp1' hp2'

theorem lookup_setCounter_self (cs : List (String × Nat)) (k : String) (v : Nat) :
    (setCounter cs k v).lookup k = some v := by
  induction cs with
  | nil => simp [setCounter, List.lookup]
  | cons hd tl ih =>
    obtain ⟨k0, v0⟩ := hd
    rw [setCounter]
    by_cases hk : k0 = k
    · rw [if_pos hk]
      subst hk
      simp [List.lookup]
    · rw [if_neg hk]
      rw [List.lookup]
      have hbeq : (k == k0) = false := by
        simp
        exact fun hx => hk hx.symm
      rw [hbeq]
      exact ih

theorem lookup_setCounter_ne (cs : List (String × Nat)) (k k' : String) (v : Nat)
    (h : k' ≠ k) : (setCounter cs k v).lookup k' = cs.lookup k' := by
  induction cs with
  | nil =>
    simp only [setCounter, List.lookup]
    have hbeq : (k' == k) = false := by simp [h]
    rw [hbeq]
  | cons hd tl ih =>
    obtain ⟨k0, v0⟩ := hd
    rw [setCounter]
    by_cases hk : k0 = k
    · rw [if_pos hk]
      subst hk
      have hbeq : (k' == k0) = false := by simp [h]
      simp [List.lookup, hbeq]
    · rw [if_neg hk]
      by_cases hk' : (k' == k0) = true
      · simp [List.lookup, hk']
      · have hbeq : (k' == k0) = false := by simpa using hk'
        simp [List.lookup, hbeq, ih]

/-- Pointwise growth of the path-counter map. -/
def countersMono (c1 c2 : List (String × Nat)) : Prop :=
  ∀ key, (c1.lookup key).getD 0 ≤ (c2.lookup key).getD 0

theorem countersMono_refl (c : List (String × Nat)) : countersMono c c :=
  fun _ => le_refl _

theorem countersMono_trans {a b c : List (String × Nat)}
    (h1 : countersMono a b) (h2 : countersMono b c) : countersMono a c :=
  fun k => le_trans (h1 k) (h2 k)

theorem countersMono_setCounter (cs : List (String × Nat)) (k : String) :
    countersMono cs (setCounter cs k (((cs.lookup k).getD 0) + 1)) := by
  intro key
  by_cases hk : key = k
  · subst hk
    rw [lookup_setCounter_self]
    simp
  · rw [lookup_setCounter_ne cs k key _ hk]

def entryKey (e : ExportPlanEntry) : String :=
  baseKeyOf e.pathSegments.dropLast (rawSegOf e.item)

def entryOk (counters : List (String × Nat)) (pc : ExportPlanEntry × Nat) : Prop :=
  1 ≤ pc.2 ∧ pc.1.pathSegments ≠ []
    ∧ pc.1.pathSegments.getLastD "" = segOfCount (rawSegOf pc.1.item) pc.2
    ∧ pc.2 ≤ (counters.lookup (entryKey pc.1)).getD 0

/-- Walk invariant: each plan entry carries a ghost occurrence count for
its (parent path, raw segment) key; counts are bounded by the live
counter and strictly increase along entries sharing a key. -/
def PlanInv (m : List (String × DocumentItem))
    (state : List (String × Nat) × List ExportPlanEntry) : Prop :=
  ∃ cs : List Nat, cs.length = state.2.length
    ∧ (∀ pc ∈ state.2.zip cs, entryOk state.1 pc ∧ pc.1.item ∈ m.map Prod.snd)
    ∧ List.Pairwise (fun a b => entryKey a.1 = entryKey b.1 → a.2 < b.2) (state.2.zip cs)

theorem lookup_mem_values {β : Type} {m : List (String × β)} {k : String} {v : β}
    (h : m.lookup k = some v) : v ∈ m.map Prod.snd := by
  induction m with
  | nil => simp [List.lookup] at h
  | cons hd tl ih =>
    rw [List.lookup] at h
    by_cases hk : k = hd.1
    · simp only [show (k == hd.1) = true by simp [hk]] at h
      cases h
      simp
    · simp only [show (k == hd.1) = false by simpa using hk] at h
      simp [ih h]

theorem dropLast_append_single {α : Type} (l : List α) (a : α) :
    (l ++ [a]).dropLast = l := by simp

theorem getLastD_append_single {α : Type} (l : List α) (a d : α) :
    (l ++ [a]).getLastD d = a := by simp

theorem createUniqueSegment_eq (ps : List String) (raw : String)
    (cs : List (String × Nat)) :
    createUniqueSegment ps raw cs
      = (segOfCount raw ((cs.lookup (baseKeyOf ps raw)).getD 0 + 1),
         setCounter cs (baseKeyOf ps raw) ((cs.lookup (baseKeyOf ps raw)).getD 0 + 1)) := rfl

theorem PlanInv_mono {m : List (String × DocumentItem)} {c1 c2 : List (String × Nat)}
    {plans : List ExportPlanEntry}
    (h : PlanInv m (c1, plans)) (hm : countersMono c1 c2) : PlanInv m (c2, plans) := by
  obtain ⟨cs, hlen, hok, hpw⟩ := h
  refine ⟨cs, hlen, ?_, hpw⟩
  intro pc hpc
  obtain ⟨⟨h1, h2, h3, h4⟩, h5⟩ := hok pc hpc
  exact ⟨⟨h1, h2, h3, le_trans h4 (hm _)⟩, h5⟩

theorem PlanInv_emit (m : List (String × DocumentItem))
    (state : List (String × Nat) × List ExportPlanEntry)
    (hinv : PlanInv m state) (ps : List String) (item : DocumentItem)
    (hitem : item ∈ m.map Prod.snd) :
    PlanInv m
      ((createUniqueSegment ps (rawSegOf item) state.1).2,
       state.2 ++ [{ item := item,
                     pathSegments :=
                       ps ++ [(createUniqueSegment ps (rawSegOf item) state.1).1] }]) := by
  obtain ⟨cs, hlen, hok, hpw⟩ := hinv
  have hkey : entryKey
      { item := item,
        pathSegments := ps ++ [(createUniqueSegment ps (rawSegOf item) state.1).1] }
      = baseKeyOf ps (rawSegOf item) := by
    rw [entryKey]
    rw [dropLast_append_single]
  refine ⟨cs ++ [(state.1.lookup (baseKeyOf ps (rawSegOf item))).getD 0 + 1],
    by simp [hlen], ?_, ?_⟩
  · rw [List.zip_append hlen.symm]
    intro pc hpc
    rcases List.mem_append.mp hpc with hold | hnew
    · obtain ⟨⟨h1, h2, h3, h4⟩, h5⟩ := hok pc hold
      refine ⟨⟨h1, h2, h3, ?_⟩, h5⟩
      refine le_trans h4 ?_
      rw [createUniqueSegment_eq]
      exact countersMono_setCounter state.1 (baseKeyOf ps (rawSegOf item)) (entryKey pc.1)
    · have hpc2 : pc
          = ({ item := item,
               pathSegments := ps ++ [(createUniqueSegment ps (rawSegOf item) state.1).1] },
             (state.1.lookup (baseKeyOf ps (rawSegOf item))).getD 0 + 1) := by
        simpa using hnew
      subst hpc2
      refine ⟨⟨by omega, by simp, ?_, ?_⟩, hitem⟩
      · rw [getLastD_append_single]
        rw [createUniqueSegment_eq]
      · rw [hkey, createUniqueSegment_eq]
        rw [lookup_setCounter_self]
        simp
  · rw [List.zip_append hlen.symm]
    rw [List.pairwise_append]
    refine ⟨hpw, by simp, ?_⟩
    intro a ha b hb
    have hb2 : b
        = ({ item := item,
             pathSegments := ps ++ [(createUniqueSegment ps (rawSegOf item) state.1).1] },
           (state.1.lookup (baseKeyOf ps (rawSegOf item))).getD 0 + 1) := by
      simpa using hb
    subst hb2
    intro hkeq
    obtain ⟨⟨-, -, -, h4⟩, -⟩ := hok a ha
    rw [hkey] at hkeq
    rw [hkeq] at h4
    omega

/-- The whole walk preserves the plan invariant and only grows the
counters. -/
theorem walkTreeF_planInv (m : List (String × DocumentItem)) :
    ∀ (fuel : Nat) (node : DocumentTreeNode) (parentItem : Option DocumentItem)
      (ps trail : List String) (state : List (String × Nat) × List ExportPlanEntry),
      PlanInv m state →
      PlanInv m (walkTreeF m fuel node parentItem ps trail state)
      ∧ countersMono state.1 (walkTreeF m fuel node parentItem ps trail state).1 := by
  intro fuel
  induction fuel with
  | zero =>
    intro node pI ps trail state h
    exact ⟨h, countersMono_refl _⟩
  | succ fuel ih =>
    have hfold : ∀ (pI2 : Option DocumentItem) (ps2 trail2 : List String)
        (children : List DocumentTreeNode)
        (acc : List (String × Nat) × List ExportPlanEntry), PlanInv m acc →
        PlanInv m (children.foldl
          (fun a c => walkTreeF m fuel c pI2 ps2 trail2 a) acc)
        ∧ countersMono acc.1 (children.foldl
          (fun a c => walkTreeF m fuel c pI2 ps2 trail2 a) acc).1 := by
      intro pI2 ps2 trail2 children
      induction children with
      | nil => intro acc h; exact ⟨h, countersMono_refl _⟩
      | cons c t iht =>
        intro acc h
        rw [List.foldl_cons]
        have hc := ih c pI2 ps2 trail2 acc h
        have ht2 := iht _ hc.1
        exact ⟨ht2.1, countersMono_trans hc.2 ht2.2⟩
    intro node pI ps trail state h
    rw [walkTreeF]
    cases hl : m.lookup node.id with
    | none => exact ⟨h, countersMono_refl _⟩
    | some item =>
      by_cases ht : node.id ∈ trail
      · simp only [if_pos ht]
        exact ⟨h, countersMono_refl _⟩
      · simp only [if_neg ht]
        by_cases hw : isWikiMappedDocxChild item pI = true
        · simp only [if_pos hw]
          exact ⟨h, countersMono_refl _⟩
        · simp only [if_neg hw]
          have hitem : item ∈ m.map Prod.snd := lookup_mem_values hl
          have h2 := PlanInv_emit m state h ps item hitem
          have hmono2 : countersMono state.1
              (createUniqueSegment ps (rawSegOf item) state.1).2 := by
            rw [createUniqueSegment_eq]
            exact countersMono_setCounter state.1 _
          have hf := hfold (some item)
            (ps ++ [(createUniqueSegment ps (rawSegOf item) state.1).1])
            (node.id :: trail) node.children
            ((createUniqueSegment ps (rawSegOf item) state.1).2,
             state.2 ++ [{ item := item,
                           pathSegments :=
                             ps ++ [(createUniqueSegment ps (rawSegOf item) state.1).1] }])
            h2
          exact ⟨hf.1, countersMono_trans hmono2 hf.2⟩

theorem foldl_walk_planInv (m : List (String × DocumentItem)) (fuel : Nat)
    (pI2 : Option DocumentItem) (ps2 trail2 : List String) :
    ∀ (children : List DocumentTreeNode)
      (acc : List (String × Nat) × List ExportPlanEntry), PlanInv m acc →
      PlanInv m (children.foldl (fun a c => walkTreeF m fuel c pI2 ps2 trail2 a) acc) := by
  intro children
  induction children with
  | nil => intro acc h; exact h
  | cons c t iht =>
    intro acc h
    rw [List.foldl_cons]
    exact iht _ (walkTreeF_planInv m fuel c pI2 ps2 trail2 acc h).1

theorem buildExportPlan_planInv (manifest : DiscoverManifest) :
    PlanInv (manifest.documents.reverse.map (fun item => (item.id, item)))
      ((if manifest.tree.length > 0 then manifest.tree
          else buildFallbackTree manifest.documents).foldl
        (fun acc root =>
          walkTreeF (manifest.documents.reverse.map (fun item => (item.id, item)))
            (1 + treeListSize (if manifest.tree.length > 0 then manifest.tree
              else buildFallbackTree manifest.documents)) root none [] [] acc)
        ([], [])) :=
  foldl_walk_planInv _ _ none [] [] _ ([], []) ⟨[], rfl, by simp, by simp⟩

/-- The full fold state of `buildExportPlan` (counters and entries). -/
def exportPlanState (manifest : DiscoverManifest) :
    List (String × Nat) × List ExportPlanEntry :=
  let documentsById := manifest.documents.reverse.map (fun item => (item.id, item))
  let roots := if manifest.tree.length > 0 then manifest.tree
    else buildFallbackTree manifest.documents
  roots.foldl
    (fun acc root => walkTreeF documentsById (1 + treeListSize roots) root none [] [] acc)
    ([], [])

theorem buildExportPlan_eq_state (manifest : DiscoverManifest) :
    buildExportPlan manifest = (exportPlanState manifest).2 := rfl

theorem exportPlanState_planInv (manifest : DiscoverManifest) :
    PlanInv (manifest.documents.reverse.map (fun item => (item.id, item)))
      (exportPlanState manifest) :=
  foldl_walk_planInv _ _ none [] [] _ ([], []) ⟨[], rfl, by simp, by simp⟩

theorem buildExportPlan_unique (manifest : DiscoverManifest)
    (hcond : ∀ d1 ∈ manifest.documents, ∀ d2 ∈ manifest.documents,
      rawSegOf d1 = rawSegOf d2
      ∨ (¬((rawSegOf d1 ++ "-").data <+: (rawSegOf d2).data)
         ∧ ¬((rawSegOf d2 ++ "-").data <+: (rawSegOf d1).data))) :
    ((buildExportPlan manifest).map (fun e => e.pathSegments)).Nodup := by
  obtain ⟨cs, hlen, hok, hpw⟩ := exportPlanState_planInv manifest
  rw [buildExportPlan_eq_state]
  show ((exportPlanState manifest).2.map (fun e => e.pathSegments)).Pairwise (· ≠ ·)
  rw [List.pairwise_map]
  have hfst : ((exportPlanState manifest).2.zip cs).map Prod.fst
      = (exportPlanState manifest).2 :=
    List.map_fst_zip _ _ (by omega)
  rw [← hfst, List.pairwise_map]
  refine hpw.imp_of_mem ?_
  intro a b ha hb hab hpaths
  obtain ⟨⟨ha1, ha2, ha3, ha4⟩, ha5⟩ := hok a ha
  obtain ⟨⟨hb1, hb2, hb3, hb4⟩, hb5⟩ := hok b hb
  have hdA : a.1.item ∈ manifest.documents := by
    simp only [List.map_map] at ha5
    simpa using ha5
  have hdB : b.1.item ∈ manifest.documents := by
    simp only [List.map_map] at hb5
    simpa using hb5
  have hdrop : a.1.pathSegments.dropLast = b.1.pathSegments.dropLast := by rw [hpaths]
  have hlast : a.1.pathSegments.getLastD "" = b.1.pathSegments.getLastD "" := by
    rw [hpaths]
  by_cases hraw : rawSegOf a.1.item = rawSegOf b.1.item
  · have hkeys : entryKey a.1 = entryKey b.1 := by
      rw [entryKey, entryKey, hdrop, hraw]
    have hlt := hab hkeys
    rw [ha3, hb3, hraw] at hlast
    have := segOfCount_inj_count ha1 hb1 hlast
    omega
  · rcases hcond a.1.item hdA b.1.item hdB with heq | ⟨hp1, hp2⟩
    · exact hraw heq
    · rw [ha3, hb3] at hlast
      exact segOfCount_cross hraw hp1 hp2 hlast

/-! # Claims -/

/-! ## C9 -/

/-- C9: `renderDocxMarkdown` applied to an empty block list, no title,
and `rawContent` `"raw body"` yields exactly the string `"raw body\n"`. -/
theorem C9_raw_content_round_trip :
    renderDocxMarkdown { title := none, blocks := [], rawContent := some "raw body" }
      = "raw body\n" := by
  decide

/-! ## C8 -/

/-- An ordered block (numeric type tag 10) with the given rich-text
content and optional identity / parent / explicit-order fields. -/
def orderedBlock (id parentId : Option String) (order : Option Int) (content : String) :
    JsonV :=
  .obj ((match id with
          | some i => [("block_id", JsonV.str i)]
          | none => [])
    ++ (match parentId with
          | some p => [("parent_id", JsonV.str p)]
          | none => [])
    ++ [("block_type", JsonV.num 10),
        ("ordered", JsonV.obj
          ((match order with
             | some n => [("order", JsonV.num n)]
             | none => [])
            ++ [("elements", JsonV.arr
                  [JsonV.obj [("text_run", JsonV.obj [("content", JsonV.str content)])]])]))])

/-- A plain text paragraph block. -/
def textBlock (content : String) : JsonV :=
  .obj [("text", JsonV.obj
    [("elements", JsonV.arr
      [JsonV.obj [("text_run", JsonV.obj [("content", JsonV.str content)])]])])]

/-- C8: ordered-list markers in `renderDocxMarkdown`: three consecutive
top-level ordered blocks with no explicit hint render `1.`, `2.`, `3.`;
an explicit `order: 5` hint renders `5` and resets the counter so the
next ordered block of the same group renders `6.`; the counter is scoped
to (immediate parent id, depth) — a nested run under `o1` numbers `1.`,
`2.` independently while the top level continues with `2.` — and a
non-ordered top-level block resets the counter, so a later ordered run
restarts at `1.`. -/
theorem C8_ordered_list_markers :
    renderDocxMarkdown
      { title := none
        blocks := [orderedBlock none none none "First",
                   orderedBlock none none none "Second",
                   orderedBlock none none none "Third"]
        rawContent := none }
      = "1. First\n\n2. Second\n\n3. Third\n"
    ∧ renderDocxMarkdown
        { title := none
          blocks := [orderedBlock none none (some 5) "Fifth",
                     orderedBlock none none none "Sixth"]
          rawContent := none }
        = "5. Fifth\n\n6. Sixth\n"
    ∧ renderDocxMarkdown
        { title := none
          blocks := [orderedBlock (some "o1") none none "Top 1",
                     orderedBlock (some "o2") (some "o1") none "Sub 1",
                     orderedBlock (some "o3") (some "o1") none "Sub 2",
                     orderedBlock (some "o4") none none "Top 2"]
          rawContent := none }
        = "1. Top 1\n\n  1. Sub 1\n\n  2. Sub 2\n\n2. Top 2\n"
    ∧ renderDocxMarkdown
        { title := none
          blocks := [orderedBlock none none none "One",
                     orderedBlock none none none "Two",
                     textBlock "Break",
                     orderedBlock none none none "OneAgain",
                     orderedBlock none none none "TwoAgain"]
          rawContent := none }
        = "1. One\n\n2. Two\n\nBreak\n\n1. OneAgain\n\n2. TwoAgain\n" := by
  refine ⟨by decide, by decide, by decide, by decide⟩

/-! ## C1 -/

/-- Does every non-blank line of the (CRLF-normalized) input match the
markdown heading pattern? -/
def allLinesHeading (markdown : String) : Bool :=
  (splitOnChar '\n' (replaceCrLf markdown.data)).all
    (fun ln => (jsTrim ln).isEmpty || isMarkdownHeadingLine (jsTrim ln))

/-- Number of non-blank lines of the (CRLF-normalized) input. -/
def nonBlankLineCount (markdown : String) : Nat :=
  ((splitOnChar '\n' (replaceCrLf markdown.data)).filter
    (fun ln => !(jsTrim ln).isEmpty)).length

/-- C1 counterexample: the claim states that every markdown string whose
non-blank lines are all heading lines has no body content; the two-line
heading-only document `"# A\n\n## B\n"` is such a string, yet
`hasMarkdownBodyContent` reports body content for it. -/
theorem C1_counterexample_two_headings :
    allLinesHeading "# A\n\n## B\n" = true
      ∧ hasMarkdownBodyContent "# A\n\n## B\n" = true := by
  decide

theorem hasBodyLoop_all_heading (lines : List (List Char)) :
    ∀ count : Nat,
      (∀ ln ∈ lines, (jsTrim ln).isEmpty = true ∨ isMarkdownHeadingLine (jsTrim ln) = true) →
      hasBodyLoop lines count
        = decide (1 < count + (lines.filter (fun ln => !(jsTrim ln).isEmpty)).length) := by
  induction lines with
  | nil => intro count _; simp [hasBodyLoop]
  | cons ln rest ih =>
    intro count hall
    have hln := hall ln (by simp)
    have hrest : ∀ l ∈ rest, (jsTrim l).isEmpty = true ∨ isMarkdownHeadingLine (jsTrim l) = true :=
      fun l hl => hall l (by simp [hl])
    rw [hasBodyLoop, List.filter_cons]
    rcases hln with hblank | hheading
    · rw [if_pos hblank, if_neg (by simp [hblank] : ¬((!(jsTrim ln).isEmpty) = true))]
      exact ih count hrest
    · by_cases hblank : (jsTrim ln).isEmpty = true
      · rw [if_pos hblank, if_neg (by simp [hblank] : ¬((!(jsTrim ln).isEmpty) = true))]
        exact ih count hrest
      · rw [if_neg hblank, if_pos hheading,
          if_pos (by simp [hblank] : (!(jsTrim ln).isEmpty) = true),
          List.length_cons, ih (count + 1) hrest]
        congr 1
        simp
        omega

/-- C1 amended: for a markdown string whose non-blank lines are all
heading lines, `hasMarkdownBodyContent` reports body content exactly
when there are two or more such lines (so a heading-only document is
reported as having no body content only when it has at most one heading
line); the claim's particular examples hold: `"# Title\n"` is `false`
and `"# Title\n\nBody\n"` is `true`. -/
theorem C1_heading_only_body_content :
    (∀ markdown : String, allLinesHeading markdown = true →
      (hasMarkdownBodyContent markdown = true ↔ 1 < nonBlankLineCount markdown))
    ∧ hasMarkdownBodyContent "# Title\n" = false
    ∧ hasMarkdownBodyContent "# Title\n\nBody\n" = true := by
  refine ⟨?_, by decide, by decide⟩
  intro markdown hall
  have hall2 : ∀ ln ∈ splitOnChar '\n' (replaceCrLf markdown.data),
      (jsTrim ln).isEmpty = true ∨ isMarkdownHeadingLine (jsTrim ln) = true := by
    intro ln hln
    have := (List.all_eq_true.mp hall) ln hln
    by_cases hblank : (jsTrim ln).isEmpty = true
    · exact Or.inl hblank
    · right
      simpa [hblank] using this
  rw [hasMarkdownBodyContent, hasBodyLoop_all_heading _ 0 hall2]
  simp [nonBlankLineCount]

/-- C1 witness: the amended equivalence applied at the three-heading
document. -/
theorem C1_heading_only_body_content_witness :
    hasMarkdownBodyContent "# A\n## B\n### C\n" = true := by
  have h := C1_heading_only_body_content.1 "# A\n## B\n### C\n" (by decide)
  exact h.mpr (by decide)

/-! ## C4 -/

/-- C4 counterexample: on a `sheets` URL the resource kind is normalized
to `sheet`, but the canonical URL keeps the raw path segment `sheets`;
it is not `origin/kind/token` for the normalized kind, contrary to the
claim's reading that the canonical URL uses the normalized kind. -/
theorem C4_counterexample_sheets_url :
    parseFeishuResource "https://example.feishu.cn/sheets/abc123?sheet=xxx"
      = some { kind := .sheet, token := "abc123",
               url := "https://example.feishu.cn/sheets/abc123" }
    ∧ "https://example.feishu.cn/sheets/abc123"
        ≠ "https://example.feishu.cn/" ++ FeishuResourceKind.sheet.pathStr ++ "/abc123" := by
  decide

/-- C4 amended: `parseFeishuResource` returns `none` unless the URL
parses, its host matches the known service domains, and the path's first
two non-empty segments are a recognized kind and a token; on success the
kind field normalizes the aliases (`sheets`→`sheet`, `bitable`→`base`)
while the returned URL is canonicalized to
`origin/<lower-cased raw kind segment>/token` (query and fragment
dropped, the alias spelling preserved). -/
theorem C4_parse_feishu_resource :
    (∀ input r, parseFeishuResource input = some r →
      ∃ parts, parseURL input = some parts
        ∧ isFeishuHost parts.hostname = true
        ∧ ∃ s0 s1 restSegs,
            (splitOnChar '/' parts.pathname.data).filter (fun s => !s.isEmpty)
              = s0 :: s1 :: restSegs
            ∧ FEISHU_PATH_KINDS.contains (lowerChars s0) = true
            ∧ r.kind = normalizeKind (String.mk (lowerChars s0))
            ∧ r.token = String.mk s1
            ∧ r.url = parts.origin ++ "/" ++ String.mk (lowerChars s0) ++ "/" ++ String.mk s1)
    ∧ (∀ input, parseURL input = none → parseFeishuResource input = none)
    ∧ (∀ input parts, parseURL input = some parts → isFeishuHost parts.hostname = false →
        parseFeishuResource input = none)
    ∧ (∀ input parts s0 s1 restSegs, parseURL input = some parts →
        isFeishuHost parts.hostname = true →
        (splitOnChar '/' parts.pathname.data).filter (fun s => !s.isEmpty)
          = s0 :: s1 :: restSegs →
        FEISHU_PATH_KINDS.contains (lowerChars s0) = false →
        parseFeishuResource input = none)
    ∧ (∀ input parts, parseURL input = some parts →
        ((splitOnChar '/' parts.pathname.data).filter (fun s => !s.isEmpty)).length < 2 →
        parseFeishuResource input = none)
    ∧ normalizeKind "sheets" = .sheet ∧ normalizeKind "bitable" = .base := by
  refine ⟨?_, ?_, ?_, ?_, ?_, by decide, by decide⟩
  · intro input r h
    cases hp : parseURL input with
    | none => rw [parseFeishuResource, hp] at h; exact Option.noConfusion h
    | some parts =>
      simp only [parseFeishuResource, hp] at h
      refine ⟨parts, rfl, ?_⟩
      cases hh : isFeishuHost parts.hostname with
      | true =>
        rw [if_neg (by rw [hh]; decide)] at h
        refine ⟨rfl, ?_⟩
        cases hseg : (splitOnChar '/' parts.pathname.data).filter (fun s => !s.isEmpty) with
        | nil => simp only [hseg] at h; exact Option.noConfusion h
        | cons s0 tail =>
          cases tail with
          | nil => simp only [hseg] at h; exact Option.noConfusion h
          | cons s1 restSegs =>
            simp only [hseg] at h
            refine ⟨s0, s1, restSegs, rfl, ?_⟩
            by_cases hempty : ((lowerChars s0).isEmpty || s1.isEmpty) = true
            · rw [if_pos hempty] at h; exact Option.noConfusion h
            · rw [if_neg hempty] at h
              cases hk : FEISHU_PATH_KINDS.contains (lowerChars s0) with
              | true =>
                rw [if_neg (by rw [hk]; decide)] at h
                cases h
                exact ⟨rfl, rfl, rfl, rfl⟩
              | false =>
                rw [if_pos (by rw [hk]; decide)] at h
                exact Option.noConfusion h
      | false =>
        rw [if_pos (by rw [hh]; decide)] at h
        exact Option.noConfusion h
  · intro input h
    rw [parseFeishuResource, h]
  · intro input parts hp hh
    simp only [parseFeishuResource, hp]
    rw [if_pos (by rw [hh]; decide)]
  · intro input parts s0 s1 restSegs hp hh hseg hk
    simp only [parseFeishuResource, hp]
    rw [if_neg (by rw [hh]; decide)]
    simp only [hseg]
    by_cases hempty : ((lowerChars s0).isEmpty || s1.isEmpty) = true
    · rw [if_pos hempty]
    · rw [if_neg hempty, if_pos (by rw [hk]; decide)]
  · intro input parts hp hlen
    simp only [parseFeishuResource, hp]
    cases hh : isFeishuHost parts.hostname with
    | true =>
      rw [if_neg (by decide)]
      cases hseg : (splitOnChar '/' parts.pathname.data).filter (fun s => !s.isEmpty) with
      | nil => simp only [hseg]
      | cons s0 tail =>
        cases tail with
        | nil => simp only [hseg]
        | cons s1 restSegs =>
          rw [hseg] at hlen
          simp only [List.length_cons] at hlen
          omega
    | false => rw [if_pos (by decide)]

/-- C4 witness: the success characterization applied at a concrete
`bitable` URL with query and fragment. -/
theorem C4_parse_feishu_resource_witness :
    ∃ parts, parseURL "https://my.feishu.cn/bitable/TOK123?view=v#frag" = some parts
      ∧ isFeishuHost parts.hostname = true
      ∧ ∃ s0 s1 restSegs,
          (splitOnChar '/' parts.pathname.data).filter (fun s => !s.isEmpty)
            = s0 :: s1 :: restSegs
          ∧ FEISHU_PATH_KINDS.contains (lowerChars s0) = true
          ∧ FeishuResourceKind.base
              = normalizeKind (String.mk (lowerChars s0))
          ∧ ("TOK123" : String) = String.mk s1
          ∧ ("https://my.feishu.cn/bitable/TOK123" : String)
              = parts.origin ++ "/" ++ String.mk (lowerChars s0) ++ "/" ++ String.mk s1 := by
  have h := C4_parse_feishu_resource.1 "https://my.feishu.cn/bitable/TOK123?view=v#frag"
    { kind := .base, token := "TOK123", url := "https://my.feishu.cn/bitable/TOK123" }
    (by decide)
  exact h

/-! ## C6 -/

/-- C6: `getTenantAccessToken` serves the cached token exactly when
`now` is strictly before the cached `expiredAt`; otherwise it performs
the token request and repopulates the cache with expiry
`now + max(60, expire - 120)` seconds (in milliseconds). -/
theorem C6_tenant_token_cache :
    ∀ (tokenCache : Option TenantAccessTokenCache) (now : Int)
      (response : TenantAccessTokenData),
      ((getTenantAccessToken tokenCache now response).2.2 = false
        ↔ ∃ cache, tokenCache = some cache ∧ now < cache.expiredAt)
      ∧ ((getTenantAccessToken tokenCache now response).2.2 = false →
          ∀ cache, tokenCache = some cache →
            (getTenantAccessToken tokenCache now response).1 = cache.token
            ∧ (getTenantAccessToken tokenCache now response).2.1 = some cache)
      ∧ ((getTenantAccessToken tokenCache now response).2.2 = true →
          (getTenantAccessToken tokenCache now response).1 = response.tenant_access_token
          ∧ (getTenantAccessToken tokenCache now response).2.1
              = some { token := response.tenant_access_token,
                       expiredAt := now + (max 60 (response.expire - 120)) * 1000 }) := by
  intro tokenCache now response
  match tokenCache with
  | none => simp [getTenantAccessToken]
  | some cache =>
    by_cases h : now < cache.expiredAt
    · simp [getTenantAccessToken, h]
    · simp [getTenantAccessToken, h]

/-- C6 witness: a live cache is served without a request; an expired
cache triggers a refresh whose expiry is
`now + max(60, 7200 - 120) * 1000`. -/
theorem C6_tenant_token_cache_witness :
    (getTenantAccessToken (some { token := "tok", expiredAt := 1000 }) 500
        { tenant_access_token := "fresh", expire := 7200 }).1 = "tok"
    ∧ (getTenantAccessToken (some { token := "tok", expiredAt := 1000 }) 2000
        { tenant_access_token := "fresh", expire := 7200 }).2.1
        = some { token := "fresh", expiredAt := 2000 + 7080 * 1000 } := by
  have h1 := C6_tenant_token_cache (some { token := "tok", expiredAt := 1000 }) 500
    { tenant_access_token := "fresh", expire := 7200 }
  have h2 := C6_tenant_token_cache (some { token := "tok", expiredAt := 1000 }) 2000
    { tenant_access_token := "fresh", expire := 7200 }
  refine ⟨(h1.2.1 (h1.1.mpr ⟨_, rfl, by decide⟩) _ rfl).1, ?_⟩
  have := (h2.2.2 (by decide)).2
  rw [this]
  decide

/-! ## C7 -/

/-- A candidate outcome after which the loop moves on to the next
candidate: an empty (non-normalizable) response, or a failure whose
message matches the "field validation failed" signature. -/
def wikiCandidateAdvances (outcome : WikiCandidateOutcome) : Bool :=
  match outcome with
  | .response raw => (normalizeWikiNode (some raw)).isNone
  | .failure message => shouldTryNextWikiGetNodeCandidate message

/-- The error line a tried candidate contributes to the aggregate. -/
def wikiCandidateErrorMsg (candidate : String × WikiCandidateOutcome) : String :=
  match candidate.2 with
  | .response _ => candidate.1 ++ ": empty node"
  | .failure message => candidate.1 ++ ": " ++ message

theorem getWikiNodeGo_skip (tok : String) (pre : List (String × WikiCandidateOutcome)) :
    ∀ (errors : List String) (rest : List (String × WikiCandidateOutcome)),
      (∀ c ∈ pre, wikiCandidateAdvances c.2 = true) →
      getWikiNodeGo tok errors (pre ++ rest)
        = getWikiNodeGo tok (errors ++ pre.map wikiCandidateErrorMsg) rest := by
  induction pre with
  | nil => intro errors rest _; simp
  | cons c t ih =>
    intro errors rest hall
    have hc := hall c (List.mem_cons_self c t)
    obtain ⟨path, outcome⟩ := c
    cases outcome with
    | response raw =>
      simp only [wikiCandidateAdvances] at hc
      rw [Option.isNone_iff_eq_none] at hc
      simp only [List.cons_append, getWikiNodeGo, hc, List.append_eq]
      rw [ih _ _ (fun d hd => hall d (List.mem_cons_of_mem _ hd))]
      simp [wikiCandidateErrorMsg, List.append_assoc]
    | failure message =>
      simp only [wikiCandidateAdvances] at hc
      simp only [List.cons_append, getWikiNodeGo, List.append_eq]
      rw [if_pos hc]
      rw [ih _ _ (fun d hd => hall d (List.mem_cons_of_mem _ hd))]
      simp [wikiCandidateErrorMsg, List.append_assoc]

/-- C7: the candidate loop of `getWikiNode` in order: it returns the
first candidate whose response normalizes, provided every earlier
candidate advanced (empty response, or failure matching the "field
validation failed" signature); a failure that does not match the
signature aborts immediately with the aggregate error of all tried
candidates; if every candidate advances the result is the aggregate
error listing every candidate's failure; and a raw node normalizes to
nothing exactly when its primary token is missing or empty. -/
theorem C7_wiki_node_candidates :
    (∀ tok pre path raw post n,
        (∀ c ∈ pre, wikiCandidateAdvances c.2 = true) →
        normalizeWikiNode (some raw) = some n →
        getWikiNode tok (pre ++ (path, WikiCandidateOutcome.response raw) :: post)
          = .ok n)
    ∧ (∀ tok pre path message post,
        (∀ c ∈ pre, wikiCandidateAdvances c.2 = true) →
        shouldTryNextWikiGetNodeCandidate message = false →
        getWikiNode tok (pre ++ (path, WikiCandidateOutcome.failure message) :: post)
          = .error (wikiAggregateError tok
              (pre.map wikiCandidateErrorMsg ++ [path ++ ": " ++ message])))
    ∧ (∀ tok candidates,
        (∀ c ∈ candidates, wikiCandidateAdvances c.2 = true) →
        getWikiNode tok candidates
          = .error (wikiAggregateError tok (candidates.map wikiCandidateErrorMsg)))
    ∧ (∀ raw, normalizeWikiNode (some raw) = none ↔
        (raw.node_token = none ∨ raw.node_token = some "")) := by
  refine ⟨?_, ?_, ?_, ?_⟩
  · intro tok pre path raw post n hall hn
    rw [getWikiNode, getWikiNodeGo_skip tok pre [] _ hall]
    simp only [getWikiNodeGo, hn]
  · intro tok pre path message post hall hstop
    rw [getWikiNode, getWikiNodeGo_skip tok pre [] _ hall]
    simp only [getWikiNodeGo]
    rw [if_neg (by rw [hstop]; decide)]
    simp
  · intro tok candidates hall
    have h := getWikiNodeGo_skip tok candidates [] [] hall
    rw [List.append_nil] at h
    rw [getWikiNode, h]
    simp [getWikiNodeGo]
  · intro raw
    cases ht : raw.node_token with
    | none => simp [normalizeWikiNode, ht]
    | some t =>
      by_cases he : t = ""
      · simp [normalizeWikiNode, ht, he]
      · simp [normalizeWikiNode, ht, he]

/-- C7 witness: a "field validation failed" failure advances to a
normalizable second candidate; a plain failure aborts with the
aggregate error. -/
theorem C7_wiki_node_candidates_witness :
    getWikiNode "tok"
        [("p1", WikiCandidateOutcome.failure "400 field validation failed: obj_type"),
         ("p2", WikiCandidateOutcome.response
            { node_token := some "N", parent_node_token := none, space_id := some "S",
              title := some "T", obj_type := some "docx", obj_token := some "OT",
              has_child := some false })]
      = .ok { nodeToken := "N", parentNodeToken := none, spaceId := some "S",
              title := some "T", objType := some "docx", objToken := some "OT",
              hasChild := some false }
    ∧ getWikiNode "tok" [("p1", WikiCandidateOutcome.failure "bad request")]
      = .error (wikiAggregateError "tok" ["p1" ++ ": " ++ "bad request"]) := by
  constructor
  · exact C7_wiki_node_candidates.1 "tok"
      [("p1", WikiCandidateOutcome.failure "400 field validation failed: obj_type")]
      "p2" _ [] _ (by decide) (by decide)
  · exact C7_wiki_node_candidates.2.1 "tok" [] "p1" "bad request" [] (by decide) (by decide)

/-! ## C2 -/

/-- Invariant of `toTreeNode`: a node is either a leaf, or its id is not
on the trail and all children satisfy the invariant with the id pushed
onto the trail. -/
inductive PathGuard : List String → DocumentTreeNode → Prop where
  | leaf (trail : List String) (i : String) : PathGuard trail (.node i [])
  | branch (trail : List String) (i : String) (children : List DocumentTreeNode) :
      i ∉ trail →
      (∀ c ∈ children, PathGuard (i :: trail) c) →
      PathGuard trail (.node i children)

theorem toTreeNodeF_guard (m : List (String × List String)) :
    ∀ (fuel : Nat) (i : String) (trail : List String),
      PathGuard trail (toTreeNodeF m fuel i trail) := by
  intro fuel
  induction fuel with
  | zero => intro i trail; exact PathGuard.leaf trail i
  | succ fuel ih =>
    intro i trail
    rw [toTreeNodeF]
    by_cases hid : i ∈ trail
    · rw [if_pos hid]; exact PathGuard.leaf trail i
    · rw [if_neg hid]
      cases hl : m.lookup i with
      | none => exact PathGuard.leaf trail i
      | some children =>
        exact PathGuard.branch trail i _ hid
          (fun c hc => by
            obtain ⟨childId, hcid, hceq⟩ := List.mem_map.mp hc
            exact hceq ▸ ih childId (i :: trail))

theorem treePathsF_guard :
    ∀ (n : Nat) (t : DocumentTreeNode) (trail : List String), PathGuard trail t →
      ∀ p ∈ treePathsF n t, p ≠ [] ∧ p.dropLast.Nodup ∧ ∀ x ∈ p.dropLast, x ∉ trail := by
  intro n
  induction n with
  | zero =>
    intro t trail hg p hp
    simp only [treePathsF, List.mem_singleton] at hp
    subst hp
    simp
  | succ n ih =>
    intro t trail hg p hp
    match t with
    | .node i [] =>
      simp only [treePathsF, List.mem_singleton] at hp
      subst hp
      simp
    | .node i (c :: cs) =>
      simp only [treePathsF, List.mem_flatten, List.mem_map] at hp
      obtain ⟨s, ⟨child, hchild, hs⟩, hps⟩ := hp
      subst hs
      obtain ⟨q, hq, hpq⟩ := List.mem_map.mp hps
      subst hpq
      cases hg with
      | branch _ _ _ hni hch =>
        obtain ⟨hqne, hqnd, hqtrail⟩ := ih child (i :: trail) (hch child hchild) q hq
        have hdrop : (i :: q).dropLast = i :: q.dropLast := by
          cases q with
          | nil => exact absurd rfl hqne
          | cons a as => rfl
        refine ⟨by simp, ?_, ?_⟩
        · rw [hdrop]
          refine List.nodup_cons.mpr ⟨?_, hqnd⟩
          intro hmem
          exact (hqtrail i hmem) (List.mem_cons_self i trail)
        · rw [hdrop]
          intro x hx
          rcases List.mem_cons.mp hx with h | h
          · subst h; exact hni
          · intro hxtrail
            exact (hqtrail x h) (List.mem_cons_of_mem _ hxtrail)

/-- C2 counterexample: with documents a, b, c and the cyclic relations
a→b, b→c, c→b, the single root-to-leaf path of the built tree is
[a, b, c, b]: the id b does occur twice on one path, because the
truncated re-entered node itself is emitted (with empty children)
before the branch stops. -/
theorem C2_counterexample_cycle_repeat :
    (buildDocumentTree
        [{ id := "a", kind := .docx, token := "ta", url := "ua", depth := 0 },
         { id := "b", kind := .docx, token := "tb", url := "ub", depth := 0 },
         { id := "c", kind := .docx, token := "tc", url := "uc", depth := 0 }]
        [{ parentId := "a", childId := "b" }, { parentId := "b", childId := "c" },
         { parentId := "c", childId := "b" }]).map treePaths
      = [[["a", "b", "c", "b"]]]
    ∧ ¬ (["a", "b", "c", "b"] : List String).Nodup := by
  decide

/-- C2 amended: an id already on the current root-to-node path is never
re-entered — that branch terminates with empty children — so on every
root-to-leaf path of the built tree all ids are pairwise distinct
except that the final (truncated) leaf may repeat an earlier id: every
path with its last element dropped has no duplicates. -/
theorem C2_cycle_truncation :
    (∀ documents relations,
        ∀ t ∈ buildDocumentTree documents relations,
        ∀ p ∈ treePaths t, p ≠ [] ∧ p.dropLast.Nodup)
    ∧ (∀ m i trail, i ∈ trail →
        toTreeNode m i trail = DocumentTreeNode.node i []) := by
  constructor
  · intro documents relations t ht p hp
    simp only [buildDocumentTree, List.mem_map] at ht
    obtain ⟨rootId, hroot, hteq⟩ := ht
    have hg : PathGuard [] t := by
      rw [← hteq, toTreeNode]
      exact toTreeNodeF_guard _ _ rootId []
    simp only [treePaths] at hp
    obtain ⟨hne, hnd, _⟩ := treePathsF_guard (treeSize t) t [] hg p hp
    exact ⟨hne, hnd⟩
  · intro m i trail h
    rw [toTreeNode, toTreeNodeF, if_pos h]

/-- C2 witness: the amended invariant applied to the cyclic example:
the path [a, b, c, b] has duplicate-free prefix [a, b, c]. -/
theorem C2_cycle_truncation_witness :
    (["a", "b", "c", "b"] : List String) ≠ []
    ∧ (["a", "b", "c", "b"] : List String).dropLast.Nodup := by
  exact C2_cycle_truncation.1
    [{ id := "a", kind := .docx, token := "ta", url := "ua", depth := 0 },
     { id := "b", kind := .docx, token := "tb", url := "ub", depth := 0 },
     { id := "c", kind := .docx, token := "tc", url := "uc", depth := 0 }]
    [{ parentId := "a", childId := "b" }, { parentId := "b", childId := "c" },
     { parentId := "c", childId := "b" }]
    (DocumentTreeNode.node "a"
      [.node "b" [.node "c" [.node "b" []]]])
    (List.Mem.head _)
    ["a", "b", "c", "b"] (by decide)

/-! ## C3 -/

/-- C3 counterexample: with `maxDepth = 0`, crawling a wiki root still
enqueues the wiki-mapped docx object as a child of the root: the
enqueue log of the finished crawl contains an item whose parent is the
root's identity key (and that item is itself discovered, so the root
does get a child). -/
theorem C3_counterexample_depth_zero_enqueue :
    cOptions.maxDepth = 0
    ∧ discoverCrawl cOptions cOracle = .ok cFinal
    ∧ cFinal.enqueueLog.map (fun e => e.item.parentId) = [some "wiki:W"]
    ∧ cFinal.documents.map (fun d => d.id) = ["wiki:W", "docx:T"]
    ∧ cFinal.documents.map (fun d => d.parentIds) = [[], ["wiki:W"]] := by
  exact ⟨rfl, crawl_run_eval, by decide, by decide, by decide⟩

/-- C3 amended: every crawl halts having discovered at most `maxDocs`
items; with `maxDepth = 0` the only enqueues are wiki-mapped objects,
at depth 0 — link and wiki-child recursion is suppressed, but a wiki
root's mapped document is still enqueued with the root as parent. -/
theorem C3_crawl_limits :
    (∀ options oracle res, discoverDocuments options oracle = .ok res →
        res.total ≤ options.maxDocs ∧ res.documents.length ≤ options.maxDocs)
    ∧ (∀ options oracle st, options.maxDepth = 0 →
        discoverCrawl options oracle = .ok st →
        ∀ e ∈ st.enqueueLog,
          e.source = EnqueueSource.wikiMapped ∧ e.item.depth = 0) := by
  constructor
  · intro options oracle res h
    rw [discoverDocuments] at h
    cases hp : parseFeishuResource options.url with
    | none => rw [hp] at h; exact absurd h (by simp)
    | some root =>
      simp only [hp] at h
      cases h
      constructor <;>
        exact crawlLoop_docs_le oracle options (initialCrawlState root.url)
          (by simp [initialCrawlState])
  · intro options oracle st hmd h
    rw [discoverCrawl] at h
    cases hp : parseFeishuResource options.url with
    | none => rw [hp] at h; exact absurd h (by simp)
    | some root =>
      simp only [hp] at h
      cases h
      exact crawlLoop_depth0 oracle options hmd (initialCrawlState root.url)
        ⟨by simp [initialCrawlState], by simp [initialCrawlState]⟩

/-- C3 witness: the depth-0 guarantee applied to the concrete wiki
crawl. -/
theorem C3_crawl_limits_witness :
    ∀ e ∈ cFinal.enqueueLog,
      e.source = EnqueueSource.wikiMapped ∧ e.item.depth = 0 := by
  exact C3_crawl_limits.2 cOptions cOracle cFinal rfl crawl_run_eval

/-! ## C5 -/

/-- The duplicate state discussed by the C5 witness: the finished crawl
with the mapped docx item queued once more. -/
def cDup : CrawlState :=
  { queue := [cQm], documents := [cDoc1, cDoc2], relations := ["wiki:W=>docx:T"],
    warnings := [], fetchLog := ["wikiNode:W", "docx:T"],
    enqueueLog := [{ source := .wikiMapped, item := cQm }] }

/-- C5: dequeuing a URL whose identity key is already discovered
performs no fetch and no enqueue — the iteration only merges the new
parent into that item's `parentIds` and the relation set (`fetchLog`,
`enqueueLog`, `warnings` and the rest of the state are untouched, and
the oracle is never consulted); `mergeParentRelation` either leaves
`parentIds` unchanged or appends the one new parent at the end
(first-seen order); and all along a crawl every discovered item's
`parentIds` is duplicate-free. -/
theorem C5_parent_merge_no_refetch :
    (∀ oracle options next rest st parsed existing,
        parseFeishuResource next.url = some parsed →
        findDocument st.documents (resourceId parsed.kind parsed.token) = some existing →
        crawlStep oracle options next rest st = .go
          { st with
              queue := rest,
              documents := updateDocument st.documents (resourceId parsed.kind parsed.token)
                (fun _ => (mergeParentRelation existing next.parentId st.relations).1),
              relations := (mergeParentRelation existing next.parentId st.relations).2 })
    ∧ (∀ item parentId relations,
        (mergeParentRelation item parentId relations).1.parentIds = item.parentIds
        ∨ ∃ p, parentId = some p ∧ p ≠ "" ∧ p ∉ item.parentIds
            ∧ (mergeParentRelation item parentId relations).1.parentIds
                = item.parentIds ++ [p])
    ∧ (∀ options oracle st, discoverCrawl options oracle = .ok st →
        ∀ d ∈ st.documents, d.parentIds.Nodup) := by
  refine ⟨?_, mergeParentRelation_parentIds, ?_⟩
  · intro oracle options next rest st parsed existing hp hf
    simp only [crawlStep, hp, hf]
  · intro options oracle st h
    rw [discoverCrawl] at h
    cases hp : parseFeishuResource options.url with
    | none => rw [hp] at h; exact absurd h (by simp)
    | some root =>
      simp only [hp] at h
      cases h
      exact crawlLoop_nodup oracle options (initialCrawlState root.url)
        (by simp [initialCrawlState])

/-- C5 witness: re-dequeuing the already-discovered docx item merges
the (already present) parent and changes nothing else — in particular
`fetchLog` and `enqueueLog` keep their former values. -/
theorem C5_parent_merge_no_refetch_witness :
    crawlStep cOracle cOptions cQm [] cDup
      = .go
        { queue := [], documents := [cDoc1, cDoc2],
          relations := ["wiki:W=>docx:T"], warnings := [],
          fetchLog := ["wikiNode:W", "docx:T"],
          enqueueLog := [{ source := .wikiMapped, item := cQm }] } := by
  have h := C5_parent_merge_no_refetch.1 cOracle cOptions cQm [] cDup
    { kind := .docx, token := "T", url := "https://my.feishu.cn/docx/T" } cDoc2
    (by decide) (by decide)
  rw [h]
  decide

/-! ## C10 -/

/-- C10 counterexample: three root documents titled "a", "a" and "a-2":
the duplicate "a" takes the collision suffix "a-2", which coincides with
the third sibling's literal title, so two plan entries resolve to the
same output path. -/
theorem C10_counterexample_suffix_collision :
    (buildExportPlan
        { documents :=
            [{ id := "1", kind := .docx, token := "t1", url := "u1", depth := 0,
               title := some "a" },
             { id := "2", kind := .docx, token := "t2", url := "u2", depth := 0,
               title := some "a" },
             { id := "3", kind := .docx, token := "t3", url := "u3", depth := 0,
               title := some "a-2" }],
          tree := [.node "1" [], .node "2" [], .node "3" []] }).map
        (fun e => e.pathSegments)
      = [["a"], ["a-2"], ["a-2"]]
    ∧ ¬ ([["a"], ["a-2"], ["a-2"]] : List (List String)).Nodup := by
  decide

/-- C10 amended: the export plan's full path segment lists are pairwise
distinct for every manifest whose documents' raw segments (sanitized
title, or the kind-token fallback) do not collide with each other's
collision-suffix namespace: any two documents either share their raw
segment exactly (the per-key counter then separates them), or neither
raw segment extends the other by a "-" suffix.  Without that proviso a
"-2"-suffixed name can coincide with another sibling's literal title
and two entries resolve to the same output file path. -/
theorem C10_export_plan_unique_paths (manifest : DiscoverManifest)
    (hcond : ∀ d1 ∈ manifest.documents, ∀ d2 ∈ manifest.documents,
      rawSegOf d1 = rawSegOf d2
      ∨ (¬((rawSegOf d1 ++ "-").data <+: (rawSegOf d2).data)
         ∧ ¬((rawSegOf d2 ++ "-").data <+: (rawSegOf d1).data))) :
    ((buildExportPlan manifest).map (fun e => e.pathSegments)).Nodup :=
  buildExportPlan_unique manifest hcond

/-- C10 witness: a two-level manifest with distinct, suffix-free titles
gets pairwise distinct paths. -/
theorem C10_export_plan_unique_paths_witness :
    ((buildExportPlan
        { documents :=
            [{ id := "1", kind := .docx, token := "t1", url := "u1", depth := 0,
               title := some "alpha" },
             { id := "2", kind := .docx, token := "t2", url := "u2", depth := 0,
               title := some "beta" }],
          tree := [.node "1" [.node "2" []]] }).map (fun e => e.pathSegments)).Nodup := by
  exact C10_export_plan_unique_paths _ (by decide)

end FeishuMd
